import Mathlib

/-!
Shallow embedding of the brickadia-rs save codec (`.brs` files) in Lean 4,
with theorems settling the specification claims about it.

Conventions used throughout the embedding:

- Bytes are `Nat` values below 256; byte streams are `List Nat`.
- Bit streams (the `bitstream_io` little-endian readers/writers) are
  `List Bool`, LSB-first within each byte.
- Rust `String` values are modelled as `List Nat` of Unicode scalar values;
  `str::len()` (the UTF-8 byte count) and `encode_utf16` are modelled by
  explicit UTF-8 / UTF-16 encoders.
- Machine integers are `Nat` / `Int`; wrapping is explicit (`% 2 ^ 32`).
- Fallible operations return `Option` / `Except`. Rust panics are modelled
  by a dedicated error value where they are reachable.
- `f32` values are modelled by their 32-bit pattern (a `Nat`), which is
  exactly what the codec moves around.
-/

deriving instance DecidableEq for Except

namespace Brs

/-- Unicode strings (Rust `String`) as lists of Unicode scalar values. -/
abbrev Str := List Nat

/-- Scalar values of a Lean string literal, used for concrete test strings. -/
def strLit (s : String) : Str := s.toList.map Char.toNat

/-! ## Byte-stream primitives (byteorder / std::io) -/

/-- Split off exactly `n` elements (`Read::read_exact`); `none` models an EOF error. -/
def take_exact {α : Type} (n : Nat) (l : List α) : Option (List α × List α) :=
  if n ≤ l.length then some (l.take n, l.drop n) else none

/-- Value of a little-endian byte list (first byte least significant). -/
def le_value (bs : List Nat) : Nat := bs.foldr (fun b acc => b + 2 ^ 8 * acc) 0

/-- Reinterpret a `u32` bit pattern as an `i32` (two's complement). -/
def i32_of_u32 (u : Nat) : Int := if u < 2 ^ 31 then (u : Int) else (u : Int) - 2 ^ 32

/-- Little-endian bytes of a `u16`. -/
def u16_bytes (v : Nat) : List Nat := [v % 2 ^ 8, v / 2 ^ 8 % 2 ^ 8]

/-- Two's-complement little-endian bytes of an `i32` (`byteorder::WriteBytesExt::write_i32`). -/
def i32_bytes (v : Int) : List Nat :=
  let u := (v % 2 ^ 32).toNat
  [u % 2 ^ 8, u / 2 ^ 8 % 2 ^ 8, u / 2 ^ 16 % 2 ^ 8, u / 2 ^ 24 % 2 ^ 8]

/-- Read a little-endian `i32` from a byte stream (`ReadBytesExt::read_i32`). -/
def read_i32 (input : List Nat) : Option (Int × List Nat) :=
  (take_exact 4 input).map (fun p => (i32_of_u32 (le_value p.1), p.2))

/-- Read `n` little-endian `u16` values (`ReadBytesExt::read_u16_into`). -/
def read_u16s : Nat → List Nat → Option (List Nat × List Nat)
  | 0, input => some ([], input)
  | n + 1, a :: b :: rest => (read_u16s n rest).map (fun p => (le_value [a, b] :: p.1, p.2))
  | _ + 1, _ => none

/-! ## Unicode: UTF-8 and UTF-16 codecs (Rust `std` string conversions)

These model `String::from_utf8`, `String::from_utf16`, `str::encode_utf16`,
`str::as_bytes` and `str::len` from the Rust standard library, which the
string codec of `src/ext` calls into. -/

/-- UTF-8 encoding of one Unicode scalar value. -/
def utf8_encode_char (c : Nat) : List Nat :=
  if c < 0x80 then [c]
  else if c < 0x800 then [0xC0 + c / 64, 0x80 + c % 64]
  else if c < 0x10000 then [0xE0 + c / 4096, 0x80 + c / 64 % 64, 0x80 + c % 64]
  else [0xF0 + c / 262144, 0x80 + c / 4096 % 64, 0x80 + c / 64 % 64, 0x80 + c % 64]

/-- UTF-8 encoding of a string (`str::as_bytes`). -/
def utf8_encode (s : Str) : List Nat := s.flatMap utf8_encode_char

/-- Rust `str::len()`: the number of UTF-8 bytes of the string. -/
def str_len (s : Str) : Nat := (utf8_encode s).length

/-- Rust `str::is_ascii()`: every scalar value is below `0x80`. -/
def is_ascii (s : Str) : Bool := s.all (· < 0x80)

/-- Validating UTF-8 decoder (`String::from_utf8`): rejects truncated
sequences, stray continuation bytes, overlong forms and surrogates. -/
def utf8_decode : List Nat → Option Str
  | [] => some []
  | b :: rest =>
    if b < 0x80 then (utf8_decode rest).map (b :: ·)
    else if b < 0xC2 then none
    else if b < 0xE0 then
      match rest with
      | b1 :: rest2 =>
        if 0x80 ≤ b1 ∧ b1 < 0xC0 then
          (utf8_decode rest2).map (((b - 0xC0) * 64 + (b1 - 0x80)) :: ·)
        else none
      | _ => none
    else if b < 0xF0 then
      match rest with
      | b1 :: b2 :: rest2 =>
        let lo1 := if b = 0xE0 then 0xA0 else 0x80
        let hi1 := if b = 0xED then 0xA0 else 0xC0
        if (lo1 ≤ b1 ∧ b1 < hi1) ∧ (0x80 ≤ b2 ∧ b2 < 0xC0) then
          (utf8_decode rest2).map
            (((b - 0xE0) * 4096 + (b1 - 0x80) * 64 + (b2 - 0x80)) :: ·)
        else none
      | _ => none
    else if b < 0xF5 then
      match rest with
      | b1 :: b2 :: b3 :: rest2 =>
        let lo1 := if b = 0xF0 then 0x90 else 0x80
        let hi1 := if b = 0xF4 then 0x90 else 0xC0
        if (lo1 ≤ b1 ∧ b1 < hi1) ∧ (0x80 ≤ b2 ∧ b2 < 0xC0) ∧ (0x80 ≤ b3 ∧ b3 < 0xC0) then
          (utf8_decode rest2).map
            (((b - 0xF0) * 262144 + (b1 - 0x80) * 4096 + (b2 - 0x80) * 64 + (b3 - 0x80)) :: ·)
        else none
      | _ => none
    else none

/-- UTF-16 encoding of one scalar value (`char::encode_utf16`). -/
def utf16_encode_char (c : Nat) : List Nat :=
  if c < 0x10000 then [c]
  else [0xD800 + (c - 0x10000) / 0x400, 0xDC00 + (c - 0x10000) % 0x400]

/-- UTF-16 code units of a string (`str::encode_utf16`). -/
def utf16_encode (s : Str) : List Nat := s.flatMap utf16_encode_char

/-- Validating UTF-16 decoder (`String::from_utf16`): rejects lone surrogates. -/
def utf16_decode : List Nat → Option Str
  | [] => some []
  | u :: rest =>
    if u < 0xD800 ∨ 0xE000 ≤ u then (utf16_decode rest).map (u :: ·)
    else if u < 0xDC00 then
      match rest with
      | u2 :: rest2 =>
        if 0xDC00 ≤ u2 ∧ u2 < 0xE000 then
          (utf16_decode rest2).map ((0x10000 + (u - 0xD800) * 0x400 + (u2 - 0xDC00)) :: ·)
        else none
      | [] => none
    else none

/-! ## Byte-stream string codec (src/ext/write.rs, src/ext/read.rs) -/

/-- WriteExt::write_string (src/ext/write.rs lines 11-33). Empty strings emit a
zero length prefix only. ASCII strings emit `len+1`, the ASCII bytes and a null
terminator. Other strings emit `-(string.len())` (the negated UTF-8 byte
length, since Rust `String::len` counts UTF-8 bytes), the UTF-16LE code units
and a null terminator. -/
def write_string (s : Str) : List Nat :=
  if s = [] then i32_bytes 0
  else if is_ascii s then
    i32_bytes ((str_len s : Int) + 1) ++ utf8_encode s ++ [0]
  else
    i32_bytes (-(str_len s : Int)) ++ (utf16_encode s).flatMap u16_bytes ++ [0]

/-- ReadExt::read_string (src/ext/read.rs lines 13-43). A non-negative prefix
`L` means `max(0, L-1)` UTF-8 bytes plus (when `L > 0`) a null terminator; a
negative prefix `L` means `-L` bytes forming `-L / 2` UTF-16LE code units,
failing when `-L` is odd. -/
def read_string (input : List Nat) : Option (Str × List Nat) :=
  match read_i32 input with
  | none => none
  | some (size, rest) =>
    if 0 ≤ size then
      match take_exact (size - 1).toNat rest with
      | none => none
      | some (chars, rest2) =>
        match (if 0 < size then take_exact 1 rest2 else some ([], rest2)) with
        | none => none
        | some (_, rest3) =>
          match utf8_decode chars with
          | none => none
          | some s => some (s, rest3)
    else
      let size2 := -size
      if size2 % 2 = 0 then
        match read_u16s (size2 / 2).toNat rest with
        | none => none
        | some (units, rest2) =>
          match utf16_decode units with
          | none => none
          | some s => some (s, rest2)
      else none

/-! ## Bit-stream primitives (bitstream_io little-endian) -/

/-- LSB-first value of a bit list (`bits_value [b0, b1, ...] = Σ 2^i * bi`). -/
def bits_value (l : List Bool) : Nat := l.foldr (fun b acc => b.toNat + 2 * acc) 0

/-- LSB-first bits of one byte. -/
def byte_bits (b : Nat) : List Bool := (List.range 8).map (b.testBit ·)

/-- LSB-first bit stream of a byte stream. -/
def bytes_bits (bs : List Nat) : List Bool := bs.flatMap byte_bits

/-- Read one bit (`BitRead::read_bit`). -/
def read_bit : List Bool → Option (Bool × List Bool)
  | [] => none
  | b :: rest => some (b, rest)

/-- Read one whole byte from a bit stream, LSB-first. -/
def read_byte_bits : List Bool → Option (Nat × List Bool)
  | b0 :: b1 :: b2 :: b3 :: b4 :: b5 :: b6 :: b7 :: rest =>
    some (bits_value [b0, b1, b2, b3, b4, b5, b6, b7], rest)
  | _ => none

/-- Read `n` whole bytes from a bit stream (`BitRead::read_bytes`). -/
def read_bytes_bits : Nat → List Bool → Option (List Nat × List Bool)
  | 0, l => some ([], l)
  | n + 1, l =>
    match read_byte_bits l with
    | none => none
    | some (b, rest) => (read_bytes_bits n rest).map (fun p => (b :: p.1, p.2))

/-- BitReadExt::read_i32_le (src/ext/read.rs lines 150-159). -/
def bit_read_i32 (l : List Bool) : Option (Int × List Bool) :=
  (read_bytes_bits 4 l).map (fun p => (i32_of_u32 (le_value p.1), p.2))

/-- BitReadExt::read_u16_le (src/ext/read.rs lines 161-170). -/
def bit_read_u16 (l : List Bool) : Option (Nat × List Bool) :=
  (read_bytes_bits 2 l).map (fun p => (le_value p.1, p.2))

/-- BitReadExt::read_u16_le_into (src/ext/read.rs lines 172-177): `n` values. -/
def bit_read_u16s : Nat → List Bool → Option (List Nat × List Bool)
  | 0, l => some ([], l)
  | n + 1, l =>
    match bit_read_u16 l with
    | none => none
    | some (u, rest) => (bit_read_u16s n rest).map (fun p => (u :: p.1, p.2))

/-- BitReadExt::read_string (src/ext/read.rs lines 118-148). Unlike the
byte-stream reader, a negative prefix `L` here means `-L` UTF-16LE code units
(`2 * -L` bytes), and the parity test is performed on `-L * 2`, which never
fails. -/
def bit_read_string (l : List Bool) : Option (Str × List Bool) :=
  match bit_read_i32 l with
  | none => none
  | some (size, rest) =>
    if 0 ≤ size then
      match read_bytes_bits (size - 1).toNat rest with
      | none => none
      | some (chars, rest2) =>
        match (if 0 < size then read_bytes_bits 1 rest2 else some ([], rest2)) with
        | none => none
        | some (_, rest3) =>
          match utf8_decode chars with
          | none => none
          | some s => some (s, rest3)
    else
      let size2 := -size * 2
      if size2 % 2 = 0 then
        match bit_read_u16s (size2 / 2).toNat rest with
        | none => none
        | some (units, rest2) =>
          match utf16_decode units with
          | none => none
          | some s => some (s, rest2)
      else none

/-- BitReadExt::read_uint (src/ext/read.rs lines 81-93): the loop body. Bits
are accumulated LSB-first into `value` through `mask`, which doubles each step
wrapping in `u32`; the loop stops as soon as `value + mask ≥ max` or `mask`
has wrapped to zero. Reading a bit from an exhausted stream is an EOF error. -/
def read_uint_loop (max : Nat) : Nat → Nat → List Bool → Option (Nat × List Bool)
  | value, mask, [] =>
    if value + mask < max ∧ mask ≠ 0 then none else some (value, [])
  | value, mask, b :: rest =>
    if value + mask < max ∧ mask ≠ 0 then
      read_uint_loop max (if b then value ||| mask else value) (mask * 2 % 2 ^ 32) rest
    else some (value, b :: rest)

/-- BitReadExt::read_uint: entry point with `value = 0`, `mask = 1`. -/
def read_uint (max : Nat) (l : List Bool) : Option (Nat × List Bool) :=
  read_uint_loop max 0 1 l

/-- Read 7 payload bits LSB-first (the inner loop of read_uint_packed). -/
def read_7bits (l : List Bool) : Option (Nat × List Bool) :=
  if 7 ≤ l.length then some (bits_value (l.take 7), l.drop 7) else none

/-- BitReadExt::read_uint_packed (src/ext/read.rs lines 95-111): up to five
groups of one continuation bit and seven payload bits, group `i` shifted by
`7 * i`. -/
def read_uint_packed_go : Nat → Nat → Nat → List Bool → Option (Nat × List Bool)
  | 0, _, value, l => some (value, l)
  | iters + 1, i, value, l =>
    match read_bit l with
    | none => none
    | some (hasNext, l1) =>
      match read_7bits l1 with
      | none => none
      | some (part, l2) =>
        let value2 := value ||| (part <<< (7 * i))
        if hasNext then read_uint_packed_go iters (i + 1) value2 l2
        else some (value2, l2)

/-- BitReadExt::read_uint_packed: entry point (five groups maximum). -/
def read_uint_packed (l : List Bool) : Option (Nat × List Bool) :=
  read_uint_packed_go 5 0 0 l

/-- BitReadExt::read_int_packed (src/ext/read.rs lines 113-116): the low bit is
the sign (set = non-negative), the remaining bits the magnitude. -/
def read_int_packed (l : List Bool) : Option (Int × List Bool) :=
  (read_uint_packed l).map
    (fun p => (((p.1 >>> 1 : Nat) : Int) * (if p.1 &&& 1 ≠ 0 then 1 else -1), p.2))

/-! ## Bit-stream writers (src/ext/write.rs, BitWriteExt) -/

/-- BitWriteExt::write_bits (src/ext/write.rs lines 136-141): the low `len`
bits of `src`, LSB-first. -/
def write_bits (src : Nat) (len : Nat) : List Bool :=
  (List.range len).map (src.testBit ·)

/-- BitWriteExt::write_uint (src/ext/write.rs lines 115-134): the loop body,
mirroring `read_uint_loop`. The loop runs at most 32 times (the `u32` mask
doubles from 1 and wraps to zero after 32 steps), so a fuel of 33 makes the
recursion total without changing its behaviour. -/
def write_uint_loop (max value : Nat) : Nat → Nat → Nat → List Bool
  | 0, _, _ => []
  | fuel + 1, newValue, mask =>
    if newValue + mask < max ∧ mask ≠ 0 then
      (value &&& mask ≠ 0 : Bool) ::
        write_uint_loop max value fuel
          (if value &&& mask ≠ 0 then newValue ||| mask else newValue)
          (mask * 2 % 2 ^ 32)
    else []

/-- Write errors (src/write.rs `WriteError`), plus a marker for Rust panics
(the `assert!` in write_uint and out-of-bounds indexing), which are modelled
explicitly rather than by undefined behaviour. -/
inductive WErr : Type
  | ioError : WErr
  | componentBrickError : WErr
  | panicked : WErr
deriving DecidableEq, Repr

/-- BitWriteExt::write_uint: asserts `max ≥ 2` (a panic), rejects
`value ≥ max` with an `InvalidInput` I/O error, then runs the mirror of the
read_uint loop starting from `new_value = 0`, `mask = 1`. -/
def write_uint (value max : Nat) : Except WErr (List Bool) :=
  if max < 2 then .error .panicked
  else if max ≤ value then .error .ioError
  else .ok (write_uint_loop max value 33 0 1)

/-- BitWriteExt::write_uint_packed (src/ext/write.rs lines 143-154): emits
groups of a continuation bit and seven payload bits until the value is
exhausted. The source loops until `value >>= 7` reaches zero, which for the
`u32` arguments it receives takes at most five iterations; the fuel of 5 keeps
the recursion total with identical behaviour on all `u32` inputs. -/
def write_uint_packed_go : Nat → Nat → List Bool
  | 0, _ => []
  | fuel + 1, value =>
    let part := value % 2 ^ 7
    let v := value / 2 ^ 7
    (v ≠ 0 : Bool) :: write_bits part 7 ++ (if v = 0 then [] else write_uint_packed_go fuel v)

/-- BitWriteExt::write_uint_packed: entry point. -/
def write_uint_packed (value : Nat) : List Bool :=
  write_uint_packed_go 5 value

/-- BitWriteExt::write_int_packed (src/ext/write.rs lines 156-158):
`(|v| << 1) | (v ≥ 0)`, with the shift wrapping in `u32`. -/
def write_int_packed (v : Int) : List Bool :=
  write_uint_packed ((v.natAbs <<< 1 % 2 ^ 32) ||| (if 0 ≤ v then 1 else 0))

/-- BitWriteExt::write_string (src/ext/write.rs lines 94-113): same layout as
the byte-stream writer, emitted through the bit stream byte by byte. -/
def bit_write_string (s : Str) : List Bool :=
  if s = [] then bytes_bits (i32_bytes 0)
  else if is_ascii s then
    bytes_bits (i32_bytes ((str_len s : Int) + 1)) ++ bytes_bits (utf8_encode s) ++
      bytes_bits [0]
  else
    bytes_bits (i32_bytes (-(str_len s : Int))) ++
      bytes_bits ((utf16_encode s).flatMap u16_bytes) ++ bytes_bits [0]

/-- BitWrite::byte_align on a writer: pad with zero bits to a byte boundary. -/
def pad_to_byte (l : List Bool) : List Bool :=
  l ++ List.replicate ((8 - l.length % 8) % 8) false

/-- Bytes flushed by a little-endian `BitWriter` (whole bytes only; the
writers in this codec always byte-align before flushing). -/
def bits_to_bytes : List Bool → List Nat
  | b0 :: b1 :: b2 :: b3 :: b4 :: b5 :: b6 :: b7 :: rest =>
    bits_value [b0, b1, b2, b3, b4, b5, b6, b7] :: bits_to_bytes rest
  | _ => []

/-! ## The data model (src/save.rs) -/

/-- A UUID as the four `u32` words that the codec moves: `read_uuid` reads four
little-endian `u32` values (and re-serializes them big-endian into the `Uuid`
byte array), `write_uuid` recovers the words big-endian and writes them
little-endian. The two byte-order conversions cancel, so the words are the
faithful representation of the wire format. -/
structure Uuid where
  w0 : Nat
  w1 : Nat
  w2 : Nat
  w3 : Nat
deriving DecidableEq, Repr

/-- A user (src/save.rs). -/
structure User where
  name : Str
  id : Uuid
deriving DecidableEq, Repr

/-- Default for `User`: name "Unknown", nil UUID. -/
def User.default : User := ⟨strLit "Unknown", ⟨0, 0, 0, 0⟩⟩

/-- The first header (src/save.rs). `save_time` is eight opaque bytes. -/
structure Header1 where
  map : Str
  description : Str
  author : User
  host : Option User
  save_time : List Nat
  brick_count : Nat
deriving DecidableEq, Repr

/-- Default for `Header1`. -/
def Header1.default : Header1 :=
  ⟨strLit "Unknown", [], User.default, none, List.replicate 8 0, 0⟩

/-- A color, stored internally as RGBA bytes. -/
structure Color where
  r : Nat
  g : Nat
  b : Nat
  a : Nat
deriving DecidableEq, Repr

/-- Color::from_bytes_bgra. -/
def Color.from_bytes_bgra (b0 b1 b2 b3 : Nat) : Color := ⟨b2, b1, b0, b3⟩

/-- Color::from_bytes_rgb (alpha 255). -/
def Color.from_bytes_rgb (b0 b1 b2 : Nat) : Color := ⟨b0, b1, b2, 255⟩

/-- A brick owner (src/save.rs). -/
structure BrickOwner where
  name : Str
  id : Uuid
  bricks : Nat
deriving DecidableEq, Repr

/-- The second header (src/save.rs). -/
structure Header2 where
  mods : List Str
  brick_assets : List Str
  colors : List Color
  materials : List Str
  brick_owners : List BrickOwner
  physical_materials : List Str
deriving DecidableEq, Repr

/-- Default for `Header2`. -/
def Header2.default : Header2 :=
  ⟨[], [strLit "PB_DefaultBrick"], [], [strLit "BMC_Plastic"], [],
    [strLit "BPMC_Default"]⟩

/-- A save preview (src/save.rs `Preview`). -/
inductive Preview : Type
  | none : Preview
  | png (bytes : List Nat) : Preview
  | jpeg (bytes : List Nat) : Preview
  | unknown (tag : Nat) (bytes : List Nat) : Preview
deriving DecidableEq, Repr

/-- Preview::type_byte. -/
def Preview.type_byte : Preview → Nat
  | .none => 0
  | .png _ => 1
  | .jpeg _ => 2
  | .unknown tag _ => tag

/-- Preview::into_bytes. -/
def Preview.into_bytes : Preview → Option (List Nat)
  | .none => Option.none
  | .png bytes => some bytes
  | .jpeg bytes => some bytes
  | .unknown _ bytes => some bytes

/-- A brick size (src/save.rs `Size`). -/
inductive Size : Type
  | empty : Size
  | procedural (x y z : Nat) : Size
deriving DecidableEq, Repr

/-- A brick color (src/save.rs `BrickColor`). -/
inductive BrickColor : Type
  | index (i : Nat) : BrickColor
  | unique (c : Color) : BrickColor
deriving DecidableEq, Repr

/-- A brick direction (src/save.rs `Direction`, `repr(u8)` 0..5). -/
inductive Direction : Type
  | xPositive | xNegative | yPositive | yNegative | zPositive | zNegative
deriving DecidableEq, Repr

/-- The `u8` discriminant of a `Direction`. -/
def Direction.toNat : Direction → Nat
  | .xPositive => 0
  | .xNegative => 1
  | .yPositive => 2
  | .yNegative => 3
  | .zPositive => 4
  | .zNegative => 5

/-- Direction::try_from on a value already reduced mod 6 (the reader computes
`(orientation >> 2) % 6`, so the unwrap never fails; the catch-all arm is
unreachable). -/
def Direction.of_nat : Nat → Direction
  | 0 => .xPositive
  | 1 => .xNegative
  | 2 => .yPositive
  | 3 => .yNegative
  | 4 => .zPositive
  | _ => .zNegative

/-- A brick rotation (src/save.rs `Rotation`, `repr(u8)` 0..3). -/
inductive Rotation : Type
  | deg0 | deg90 | deg180 | deg270
deriving DecidableEq, Repr

/-- The `u8` discriminant of a `Rotation`. -/
def Rotation.toNat : Rotation → Nat
  | .deg0 => 0
  | .deg90 => 1
  | .deg180 => 2
  | .deg270 => 3

/-- Rotation::try_from on a value already reduced with `& 3` (never fails). -/
def Rotation.of_nat : Nat → Rotation
  | 0 => .deg0
  | 1 => .deg90
  | 2 => .deg180
  | _ => .deg270

/-- Collision flags (src/save.rs `Collision`). -/
structure Collision where
  player : Bool
  weapon : Bool
  interaction : Bool
  tool : Bool
deriving DecidableEq, Repr

/-- Collision::for_all. -/
def Collision.for_all (state : Bool) : Collision := ⟨state, state, state, state⟩

/-- An Unreal property value (src/save.rs `UnrealType`). `f32` values are
carried as their 32-bit patterns. `Class` covers the type names `Class` and
`Object`. -/
inductive UnrealType : Type
  | classOf (s : Str) : UnrealType
  | stringOf (s : Str) : UnrealType
  | boolean (b : Bool) : UnrealType
  | float (bits : Nat) : UnrealType
  | color (c : Color) : UnrealType
  | byte (b : Nat) : UnrealType
  | rotator (x y z : Nat) : UnrealType
deriving DecidableEq, Repr

/-- A brick (src/save.rs). The `HashMap<String, HashMap<String, UnrealType>>`
of components is modelled as an association list of association lists (Rust
hash maps iterate in unspecified order; the list order is the model's
iteration order, and lookups are key-based). -/
structure Brick where
  asset_name_index : Nat
  size : Size
  position : Int × Int × Int
  direction : Direction
  rotation : Rotation
  collision : Collision
  visibility : Bool
  material_index : Nat
  physical_index : Nat
  material_intensity : Nat
  color : BrickColor
  owner_index : Nat
  components : List (Str × List (Str × UnrealType))
deriving DecidableEq, Repr

/-- Default for `Brick`. -/
def Brick.default : Brick :=
  ⟨0, .empty, (0, 0, 0), .zPositive, .deg0, Collision.for_all true, true,
    0, 0, 5, .index 0, 0, []⟩

/-- A component (src/save.rs). `properties` maps property name to type name. -/
structure Component where
  version : Int
  brick_indices : List Nat
  properties : List (Str × Str)
deriving DecidableEq, Repr

/-- An entire save file (src/save.rs `SaveData`). -/
structure SaveData where
  version : Nat
  game_version : Int
  header1 : Header1
  header2 : Header2
  preview : Preview
  bricks : List Brick
  components : List (Str × Component)
deriving DecidableEq, Repr

/-- Default for `SaveData` (SAVE_VERSION is 10). -/
def SaveData.default : SaveData :=
  ⟨10, 0, Header1.default, Header2.default, .none, [], []⟩

/-- Key lookup in an association list (HashMap::get). -/
def alist_get {α : Type} (k : Str) : List (Str × α) → Option α
  | [] => Option.none
  | (k2, v) :: rest => if k2 = k then some v else alist_get k rest

/-! ## The octree index (src/util/octree.rs) -/

/-- CHUNK_SIZE: the edge of an octree chunk. -/
def CHUNK_SIZE : Int := 1024

/-- An integer point in space (src/util/octree.rs `Point`). -/
structure Point where
  x : Int
  y : Int
  z : Int
deriving DecidableEq, Repr

/-- The `div_floor` helper inside Point::chunk, with Rust's truncating `i32`
division (`Int.tdiv`): `a / 1024` for `a ≥ 0` and `(a - 1024 - 1) / 1024`
otherwise. -/
def div_floor (a : Int) : Int :=
  if 0 ≤ a then Int.tdiv a CHUNK_SIZE else Int.tdiv (a - CHUNK_SIZE - 1) CHUNK_SIZE

/-- Point::chunk (src/util/octree.rs lines 36-46). -/
def Point.chunk (p : Point) : Point := ⟨div_floor p.x, div_floor p.y, div_floor p.z⟩

/-- Point::chunk_midpoint. -/
def Point.chunk_midpoint (p : Point) : Point :=
  ⟨p.x * CHUNK_SIZE + Int.tdiv CHUNK_SIZE 2,
   p.y * CHUNK_SIZE + Int.tdiv CHUNK_SIZE 2,
   p.z * CHUNK_SIZE + Int.tdiv CHUNK_SIZE 2⟩

/-- Point::shifted. -/
def Point.shifted (p : Point) (dx dy dz : Int) : Point :=
  ⟨p.x + dx, p.y + dy, p.z + dz⟩

/-- A point triple from the data model. -/
def Point.of_triple (t : Int × Int × Int) : Point := ⟨t.1, t.2.1, t.2.2⟩

/-- A node of the octree (src/util/octree.rs `Node`, `NodeValue`). The
`Vec<Node<T>>` of children always holds exactly eight nodes (the split in
`insert` is its only allocation site, and `reduce` discards the vector it
pops from), so children are modelled as eight fields in the same order as the
vector literal in `insert`. -/
inductive Node (T : Type) : Type
  | leaf (point : Point) (depth : Nat) (half : Nat) (value : Option T) : Node T
  | branch (point : Point) (depth : Nat) (half : Nat)
      (c0 c1 c2 c3 c4 c5 c6 c7 : Node T) : Node T
deriving DecidableEq, Repr

/-- The point of a node. -/
def Node.point {T : Type} : Node T → Point
  | .leaf p _ _ _ => p
  | .branch p _ _ _ _ _ _ _ _ _ _ => p

/-- The depth of a node. -/
def Node.depth {T : Type} : Node T → Nat
  | .leaf _ d _ _ => d
  | .branch _ d _ _ _ _ _ _ _ _ _ => d

/-- The half-extent of a node. -/
def Node.half {T : Type} : Node T → Nat
  | .leaf _ _ h _ => h
  | .branch _ _ h _ _ _ _ _ _ _ _ => h

/-- Whether the node currently has children. -/
def Node.isBranch {T : Type} : Node T → Bool
  | .leaf _ _ _ _ => false
  | .branch _ _ _ _ _ _ _ _ _ _ _ => true

/-- The `NodeValue::Value` payload of a leaf (`none` for a branch). -/
def Node.nvalue {T : Type} : Node T → Option (Option T)
  | .leaf _ _ _ v => some v
  | .branch _ _ _ _ _ _ _ _ _ _ _ => Option.none

/-- Node::new: a fresh leaf with `half = 2 ^ (max(depth, 1) - 1)`. -/
def Node.new {T : Type} (point : Point) (depth : Nat) (value : Option T) : Node T :=
  .leaf point depth (2 ^ (Nat.max depth 1 - 1)) value

/-- The cube `[p - half, p + half]` lies inside `[mn, mx]` (Node::is_inside). -/
def inside_bounds (p : Point) (half : Nat) (mn mx : Point) : Bool :=
  mn.x ≤ p.x - (half : Int) && p.x + (half : Int) ≤ mx.x &&
  mn.y ≤ p.y - (half : Int) && p.y + (half : Int) ≤ mx.y &&
  mn.z ≤ p.z - (half : Int) && p.z + (half : Int) ≤ mx.z

/-- The cube `[p - half, p + half]` lies outside `[mn, mx]` (Node::is_outside). -/
def outside_bounds (p : Point) (half : Nat) (mn mx : Point) : Bool :=
  p.x + (half : Int) ≤ mn.x || mx.x ≤ p.x - (half : Int) ||
  p.y + (half : Int) ≤ mn.y || mx.y ≤ p.y - (half : Int) ||
  p.z + (half : Int) ≤ mn.z || mx.z ≤ p.z - (half : Int)

/-- Node::is_inside. -/
def Node.is_inside {T : Type} (n : Node T) (mn mx : Point) : Bool :=
  inside_bounds n.point n.half mn mx

/-- Node::is_outside. -/
def Node.is_outside {T : Type} (n : Node T) (mn mx : Point) : Bool :=
  outside_bounds n.point n.half mn mx

/-- Node::insert on a leaf. A leaf inside the bounds takes the value; at depth
zero nothing happens; otherwise the leaf splits into eight depth-(d-1) leaves
at offsets `±half/2` carrying the old value, and insertion recurses into every
child not outside the bounds. Recursion starting from a leaf only ever meets
leaves, each one level shallower, so this is structural recursion on `depth`
(the recursion structure of the source). -/
def insert_leaf {T : Type} (v : T) (mn mx : Point) :
    Nat → Point → Nat → Option T → Node T
  | depth, p, half, old =>
    if inside_bounds p half mn mx then .leaf p depth half (some v)
    else
      match depth with
      | 0 => .leaf p 0 half old
      | d + 1 =>
        let cs : Int := ((half / 2 : Nat) : Int)
        let chalf : Nat := 2 ^ (Nat.max d 1 - 1)
        let child := fun (cp : Point) =>
          if outside_bounds cp chalf mn mx then Node.leaf cp d chalf old
          else insert_leaf v mn mx d cp chalf old
        .branch p (d + 1) half
          (child (p.shifted (-cs) (-cs) (-cs)))
          (child (p.shifted cs (-cs) (-cs)))
          (child (p.shifted (-cs) cs (-cs)))
          (child (p.shifted cs cs (-cs)))
          (child (p.shifted (-cs) (-cs) cs))
          (child (p.shifted cs (-cs) cs))
          (child (p.shifted (-cs) cs cs))
          (child (p.shifted cs cs cs))

/-- Node::insert (src/util/octree.rs lines 172-237). A node inside the bounds
becomes a plain value; at depth zero nothing happens; a leaf splits (see
`insert_leaf`); a branch recurses into every child not outside the bounds. -/
def Node.insert {T : Type} (v : T) (mn mx : Point) : Node T → Node T
  | .leaf p depth half old => insert_leaf v mn mx depth p half old
  | .branch p depth half c0 c1 c2 c3 c4 c5 c6 c7 =>
    if inside_bounds p half mn mx then .leaf p depth half (some v)
    else if depth = 0 then .branch p depth half c0 c1 c2 c3 c4 c5 c6 c7
    else
      .branch p depth half
        (if c0.is_outside mn mx then c0 else c0.insert v mn mx)
        (if c1.is_outside mn mx then c1 else c1.insert v mn mx)
        (if c2.is_outside mn mx then c2 else c2.insert v mn mx)
        (if c3.is_outside mn mx then c3 else c3.insert v mn mx)
        (if c4.is_outside mn mx then c4 else c4.insert v mn mx)
        (if c5.is_outside mn mx then c5 else c5.insert v mn mx)
        (if c6.is_outside mn mx then c6 else c6.insert v mn mx)
        (if c7.is_outside mn mx then c7 else c7.insert v mn mx)

/-- Node::reduce (src/util/octree.rs lines 147-170). The loop reduces children
in index order; it returns early as soon as a reduced child still has
children, or a reduced child's value differs from child 0's value — leaving
the remaining children unreduced. If all eight reduce to leaves with equal
values, the node collapses to a leaf carrying the popped (last) child's
value. -/
def Node.reduce {T : Type} [DecidableEq T] : Node T → Node T
  | .leaf p d h v => .leaf p d h v
  | .branch p d h c0 c1 c2 c3 c4 c5 c6 c7 =>
    let r0 := c0.reduce
    if r0.isBranch then .branch p d h r0 c1 c2 c3 c4 c5 c6 c7 else
    let r1 := c1.reduce
    if r1.isBranch then .branch p d h r0 r1 c2 c3 c4 c5 c6 c7 else
    if r1.nvalue ≠ r0.nvalue then .branch p d h r0 r1 c2 c3 c4 c5 c6 c7 else
    let r2 := c2.reduce
    if r2.isBranch then .branch p d h r0 r1 r2 c3 c4 c5 c6 c7 else
    if r2.nvalue ≠ r0.nvalue then .branch p d h r0 r1 r2 c3 c4 c5 c6 c7 else
    let r3 := c3.reduce
    if r3.isBranch then .branch p d h r0 r1 r2 r3 c4 c5 c6 c7 else
    if r3.nvalue ≠ r0.nvalue then .branch p d h r0 r1 r2 r3 c4 c5 c6 c7 else
    let r4 := c4.reduce
    if r4.isBranch then .branch p d h r0 r1 r2 r3 r4 c5 c6 c7 else
    if r4.nvalue ≠ r0.nvalue then .branch p d h r0 r1 r2 r3 r4 c5 c6 c7 else
    let r5 := c5.reduce
    if r5.isBranch then .branch p d h r0 r1 r2 r3 r4 r5 c6 c7 else
    if r5.nvalue ≠ r0.nvalue then .branch p d h r0 r1 r2 r3 r4 r5 c6 c7 else
    let r6 := c6.reduce
    if r6.isBranch then .branch p d h r0 r1 r2 r3 r4 r5 r6 c7 else
    if r6.nvalue ≠ r0.nvalue then .branch p d h r0 r1 r2 r3 r4 r5 r6 c7 else
    let r7 := c7.reduce
    if r7.isBranch then .branch p d h r0 r1 r2 r3 r4 r5 r6 r7 else
    if r7.nvalue ≠ r0.nvalue then .branch p d h r0 r1 r2 r3 r4 r5 r6 r7 else
    .leaf p d h (r7.nvalue.getD Option.none)

/-- HashSet::insert on the model of a hash set as a duplicate-free list. -/
def hs_insert {T : Type} [DecidableEq T] (v : T) (s : List T) : List T :=
  if v ∈ s then s else s ++ [v]

/-- Node::search (src/util/octree.rs lines 239-258): collect leaf values over
every subtree not outside the bounds. -/
def Node.search {T : Type} [DecidableEq T] (mn mx : Point) :
    Node T → List T → List T
  | .leaf _ _ _ value, set =>
    match value with
    | some v => hs_insert v set
    | Option.none => set
  | .branch _ _ _ c0 c1 c2 c3 c4 c5 c6 c7, set =>
    let s0 := if c0.is_outside mn mx then set else c0.search mn mx set
    let s1 := if c1.is_outside mn mx then s0 else c1.search mn mx s0
    let s2 := if c2.is_outside mn mx then s1 else c2.search mn mx s1
    let s3 := if c3.is_outside mn mx then s2 else c3.search mn mx s2
    let s4 := if c4.is_outside mn mx then s3 else c4.search mn mx s3
    let s5 := if c5.is_outside mn mx then s4 else c5.search mn mx s4
    let s6 := if c6.is_outside mn mx then s5 else c6.search mn mx s5
    if c7.is_outside mn mx then s6 else c7.search mn mx s6

/-- A collection of per-chunk octrees (src/util/octree.rs `ChunkTree`). -/
structure ChunkTree (T : Type) : Type where
  chunks : List (Node T × Point)
deriving DecidableEq, Repr

/-- An integer range `lo..=hi` as a list. -/
def int_range (lo hi : Int) : List Int :=
  (List.range (hi + 1 - lo).toNat).map (fun i => lo + (i : Int))

/-- ChunkTree::chunks_from_bounds (src/util/octree.rs lines 288-341).
`none` models the `panic!("max chunk too small")`. The `f64` expression
`(min_x as f64 / 1024.0 + 1.0).floor() as i32` is exact for `i32` inputs
(1024 is a power of two, so the quotient and sum are exactly representable)
and equals `⌊min_x / 1024⌋ + 1`, here written with flooring division. -/
def chunks_from_bounds (mn mx : Point) : Option (List (Point × Point)) :=
  let min_chunk := mn.chunk
  let max_chunk := (mx.shifted (-1) (-1) (-1)).chunk
  if max_chunk.x < min_chunk.x ∨ max_chunk.y < min_chunk.y ∨ max_chunk.z < min_chunk.z then
    Option.none
  else if min_chunk ≠ max_chunk then
    some ((int_range min_chunk.x max_chunk.x).flatMap (fun cx =>
      let min_x := if cx = min_chunk.x then mn.x else cx * CHUNK_SIZE
      let max_x := min ((Int.fdiv min_x CHUNK_SIZE + 1) * CHUNK_SIZE) mx.x
      (int_range min_chunk.y max_chunk.y).flatMap (fun cy =>
        let min_y := if cy = min_chunk.y then mn.y else cy * CHUNK_SIZE
        let max_y := min ((Int.fdiv min_y CHUNK_SIZE + 1) * CHUNK_SIZE) mx.y
        (int_range min_chunk.z max_chunk.z).map (fun cz =>
          let min_z := if cz = min_chunk.z then mn.z else cz * CHUNK_SIZE
          let max_z := min ((Int.fdiv min_z CHUNK_SIZE + 1) * CHUNK_SIZE) mx.z
          (Point.mk min_x min_y min_z, Point.mk max_x max_y max_z)))))
  else some [(mn, mx)]

/-- ChunkTree::chunk_at: the chunk containing `point`, if any. -/
def ChunkTree.chunk_at {T : Type} (t : ChunkTree T) (point : Point) : Option (Node T) :=
  let chunk_pos := point.chunk
  (t.chunks.find? (fun q => q.2 = chunk_pos)).map (fun q => q.1)

/-- Apply `f` to the first chunk stored under chunk position `cp`
(ChunkTree::chunk_at_mut followed by the mutation). -/
def update_chunk {T : Type} (cp : Point) (f : Node T → Node T) :
    List (Node T × Point) → Option (List (Node T × Point))
  | [] => Option.none
  | (n, p) :: rest =>
    if p = cp then some ((f n, p) :: rest)
    else (update_chunk cp f rest).map ((n, p) :: ·)

/-- ChunkTree::insert (src/util/octree.rs lines 378-390): decompose the volume
per chunk, then insert into the existing chunk root or create a fresh one
(depth 10, rooted at the chunk midpoint). `none` propagates the
chunks_from_bounds panic. -/
def ChunkTree.insert {T : Type} (t : ChunkTree T) (v : T) (mnb mxb : Point) :
    Option (ChunkTree T) :=
  (chunks_from_bounds mnb mxb).map (fun pairs =>
    pairs.foldl (fun acc pr =>
      let mn := pr.1
      let mx := pr.2
      match update_chunk mn.chunk (fun n => n.insert v mn mx) acc.chunks with
      | some cs => ⟨cs⟩
      | Option.none =>
        let chunk_pos := mn.chunk
        let chunk := (Node.new chunk_pos.chunk_midpoint 10 Option.none).insert v mn mx
        ⟨acc.chunks ++ [(chunk, chunk_pos)]⟩) t)

/-- ChunkTree::search (src/util/octree.rs lines 362-370). -/
def ChunkTree.search {T : Type} [DecidableEq T] (t : ChunkTree T) (mnb mxb : Point) :
    Option (List T) :=
  (chunks_from_bounds mnb mxb).map (fun pairs =>
    pairs.foldl (fun set pr =>
      match t.chunk_at pr.1 with
      | some chunk => chunk.search pr.1 pr.2 set
      | Option.none => set) [])

/-- The save octree (src/util/octree.rs `SaveOctree`): a save plus a chunk
tree of brick indices. -/
structure SaveOctree where
  data : SaveData
  tree : ChunkTree Nat
deriving DecidableEq, Repr

/-- Modelled from the spec: `get_axis_size(brick, assets, axis) -> u32` (the
brick-asset procedural-size table in `src/util/mod.rs`) is not among the
sources; the spec scopes it out as an injected function, so everything that
consumes it is parameterized over `axis_size`. -/
def AxisSize : Type := Brick → List Str → Nat → Nat

/-- SaveOctree::brick_size. -/
def SaveOctree.brick_size (axis_size : AxisSize) (t : SaveOctree) (b : Brick) :
    Nat × Nat × Nat :=
  (axis_size b t.data.header2.brick_assets 0,
   axis_size b t.data.header2.brick_assets 1,
   axis_size b t.data.header2.brick_assets 2)

/-- SaveOctree::brick_bounds: `(position - size, position + size)`. -/
def SaveOctree.brick_bounds (axis_size : AxisSize) (t : SaveOctree) (b : Brick) :
    (Int × Int × Int) × (Int × Int × Int) :=
  let s := t.brick_size axis_size b
  ((b.position.1 - s.1, b.position.2.1 - s.2.1, b.position.2.2 - s.2.2),
   (b.position.1 + s.1, b.position.2.1 + s.2.1, b.position.2.2 + s.2.2))

/-- SaveOctree::new (src/util/octree.rs lines 402-415): insert every brick
with non-degenerate bounds under its index. `none` propagates the
chunks_from_bounds panic. -/
def SaveOctree.new (axis_size : AxisSize) (data : SaveData) : Option SaveOctree :=
  (data.bricks.enum.foldlM (fun t pr =>
      let bounds := t.brick_bounds axis_size pr.2
      if bounds.1 ≠ bounds.2 then
        (t.tree.insert pr.1 (Point.of_triple bounds.1) (Point.of_triple bounds.2)).map
          (fun tr => { t with tree := tr })
      else some t)
    (SaveOctree.mk data ⟨[]⟩))

/-- SaveOctree::bricks_in (src/util/octree.rs lines 455-461): search the tree
and map the found indices to bricks. `none` models the panics (search panic,
out-of-range index). -/
def SaveOctree.bricks_in (t : SaveOctree) (mn mx : Int × Int × Int) :
    Option (List Brick) :=
  (t.tree.search (Point.of_triple mn) (Point.of_triple mx)).bind (fun idxs =>
    idxs.mapM (fun i => t.data.bricks.get? i))

/-- A branch whose eight children are all leaves carrying the same value —
the configuration claim C7 says never survives `reduce` — checked at the top
node only. -/
def Node.top_uniform {T : Type} [DecidableEq T] : Node T → Bool
  | .leaf _ _ _ _ => false
  | .branch _ _ _ c0 c1 c2 c3 c4 c5 c6 c7 =>
    c0.nvalue.isSome && (c1.nvalue = c0.nvalue : Bool) && (c2.nvalue = c0.nvalue : Bool) &&
    (c3.nvalue = c0.nvalue : Bool) && (c4.nvalue = c0.nvalue : Bool) &&
    (c5.nvalue = c0.nvalue : Bool) && (c6.nvalue = c0.nvalue : Bool) &&
    (c7.nvalue = c0.nvalue : Bool)

/-- Whether any subtree anywhere in the tree is a branch of eight leaf
children all carrying the same value. -/
def Node.has_uniform_octet {T : Type} [DecidableEq T] : Node T → Bool
  | .leaf _ _ _ _ => false
  | .branch p d h c0 c1 c2 c3 c4 c5 c6 c7 =>
    (Node.branch p d h c0 c1 c2 c3 c4 c5 c6 c7).top_uniform ||
    c0.has_uniform_octet || c1.has_uniform_octet || c2.has_uniform_octet ||
    c3.has_uniform_octet || c4.has_uniform_octet || c5.has_uniform_octet ||
    c6.has_uniform_octet || c7.has_uniform_octet

/-- An octree built by insertions, for claim C7: a fresh depth-3 root at the
origin receiving three inserts. The first makes child 0 a branch of leaves
with two distinct values (so it cannot collapse); the third splits a depth-1
leaf under child 1 into eight identical depth-0 leaves. -/
def reduce_example_tree : Node Nat :=
  (((Node.new ⟨0, 0, 0⟩ 3 Option.none).insert 1 ⟨-4, -4, -4⟩ ⟨-2, -2, -2⟩).insert 2
      ⟨0, -4, -4⟩ ⟨2, -2, -2⟩).insert 3 ⟨0, -4, -4⟩ ⟨1, -2, -2⟩

/-- An injected axis-size function for claim C5 (modelled from the spec:
`axis_size` is external): every brick extends one unit on every axis. -/
def unit_axis_size : AxisSize := fun _ _ _ => 1

/-- A single procedural brick at position (2, 2, 2), for claim C5. -/
def small_brick : Brick :=
  { Brick.default with position := (2, 2, 2), size := .procedural 1 1 1 }

/-- A save containing only `small_brick`, for claim C5. -/
def small_brick_save : SaveData := { SaveData.default with bricks := [small_brick] }

/-! ## The writer (src/write.rs) -/

/-- Little-endian bytes of a `u32`. -/
def u32_bytes (v : Nat) : List Nat :=
  [v % 2 ^ 8, v / 2 ^ 8 % 2 ^ 8, v / 2 ^ 16 % 2 ^ 8, v / 2 ^ 24 % 2 ^ 8]

/-- WriteExt::write_uuid: the four words back out little-endian (the
big-endian word recovery from the `Uuid` byte array and the original
little-endian read cancel; see `Uuid`). -/
def write_uuid (u : Uuid) : List Nat :=
  u32_bytes u.w0 ++ u32_bytes u.w1 ++ u32_bytes u.w2 ++ u32_bytes u.w3

/-- WriteExt::write_color_bgra. -/
def write_color_bgra (c : Color) : List Nat := [c.b, c.g, c.r, c.a]

/-- WriteExt::write_array: an `i32` length prefix then the elements. -/
def write_array {α : Type} (l : List α) (f : α → List Nat) : List Nat :=
  i32_bytes (l.length : Int) ++ l.flatMap f

/-- The `write_compressed` framing with compression disabled
(src/write.rs lines 275-281): `(uncompressed_size, 0, raw bytes)`. -/
def write_uncompressed_section (payload : List Nat) : List Nat :=
  i32_bytes (payload.length : Int) ++ i32_bytes 0 ++ payload

/-- The decompressed header-1 payload (src/write.rs lines 58-78): map, author
name, description, author UUID, the host (or the author again when absent),
the save time, and `bricks.len()` as the brick count. -/
def write_header1_payload (s : SaveData) : List Nat :=
  write_string s.header1.map ++ write_string s.header1.author.name ++
  write_string s.header1.description ++ write_uuid s.header1.author.id ++
  (let host := s.header1.host.getD s.header1.author
   write_string host.name ++ write_uuid host.id) ++
  s.header1.save_time ++ i32_bytes (s.bricks.length : Int)

/-- The decompressed header-2 payload (src/write.rs lines 80-116). -/
def write_header2_payload (s : SaveData) : List Nat :=
  write_array s.header2.mods write_string ++
  write_array s.header2.brick_assets write_string ++
  write_array s.header2.colors write_color_bgra ++
  write_array s.header2.materials write_string ++
  write_array s.header2.brick_owners
    (fun o => write_uuid o.id ++ write_string o.name ++ i32_bytes (o.bricks : Int)) ++
  write_array s.header2.physical_materials write_string

/-- The preview section (src/write.rs lines 118-130): the type byte, then for
a nonzero type byte the length-prefixed bytes. -/
def write_preview (p : Preview) : List Nat :=
  let t := p.type_byte % 2 ^ 8
  if t = 0 then [t]
  else
    let bytes := p.into_bytes.getD []
    [t] ++ i32_bytes (bytes.length : Int) ++ bytes

/-- BitWriteExt::write_i32 on the bit stream. -/
def bit_write_i32 (v : Int) : List Bool := bytes_bits (i32_bytes v)

/-- One brick on the bit stream (the body of the loop in src/write.rs lines
140-217, after the `byte_align`): asset index, size, position, orientation,
the four collision bits, visibility, material/physical/intensity, color and
owner. The counts passed in are already floored at 2. -/
def write_brick_bits (asset_name_count material_count physical_material_count
    color_count : Nat) (brick : Brick) : Except WErr (List Bool) := do
  let u1 ← write_uint brick.asset_name_index asset_name_count
  let sizeBits := match brick.size with
    | .procedural x y z =>
      [true] ++ write_uint_packed x ++ write_uint_packed y ++ write_uint_packed z
    | .empty => [false]
  let posBits := write_int_packed brick.position.1 ++
    write_int_packed brick.position.2.1 ++ write_int_packed brick.position.2.2
  let orientation := (brick.direction.toNat <<< 2) ||| brick.rotation.toNat
  let u2 ← write_uint orientation 24
  let flagBits := [brick.collision.player, brick.collision.weapon,
    brick.collision.interaction, brick.collision.tool, brick.visibility]
  let u3 ← write_uint brick.material_index material_count
  let u4 ← write_uint brick.physical_index physical_material_count
  let u5 ← write_uint brick.material_intensity 11
  let colorBits ← match brick.color with
    | .index ind => do
      let u6 ← write_uint ind color_count
      pure ([false] ++ u6)
    | .unique c => pure ([true] ++ bytes_bits [c.r, c.g, c.b])
  pure (u1 ++ sizeBits ++ posBits ++ u2 ++ flagBits ++ u3 ++ u4 ++ u5 ++
    colorBits ++ write_uint_packed brick.owner_index)

/-- The entry pushed for `component_bricks` while writing bricks. -/
def push_component_entry (key : Str) (entry : Nat × List (Str × UnrealType)) :
    List (Str × List (Nat × List (Str × UnrealType))) →
      List (Str × List (Nat × List (Str × UnrealType)))
  | [] => [(key, [entry])]
  | (k, l) :: rest =>
    if k = key then (k, l ++ [entry]) :: rest
    else (k, l) :: push_component_entry key entry rest

/-- The `component_bricks` map built while writing bricks (src/write.rs lines
205-216): for each brick in order, each of its component entries is pushed
under the component name with the brick index. -/
def collect_component_bricks (bricks : List Brick) :
    List (Str × List (Nat × List (Str × UnrealType))) :=
  bricks.enum.foldl (fun acc pr =>
    pr.2.components.foldl (fun acc2 kv => push_component_entry kv.1 (pr.1, kv.2) acc2) acc)
    []

/-- The bricks section payload (src/write.rs lines 132-221): each brick is
byte-aligned, and the stream is byte-aligned at the end before flushing. -/
def write_bricks_section (s : SaveData) : Except WErr (List Nat) := do
  let asset_name_count := Nat.max s.header2.brick_assets.length 2
  let material_count := Nat.max s.header2.materials.length 2
  let physical_material_count := Nat.max s.header2.physical_materials.length 2
  let color_count := Nat.max s.header2.colors.length 2
  let bits ← s.bricks.foldlM (fun bits brick =>
    (write_brick_bits asset_name_count material_count
      physical_material_count color_count brick).map (fun b => pad_to_byte bits ++ b)) []
  pure (bits_to_bytes (pad_to_byte bits))

/-- BitWriteExt::write_unreal (src/ext/write.rs lines 181-196). -/
def write_unreal : UnrealType → List Bool
  | .boolean b => bit_write_i32 (if b then 1 else 0)
  | .byte b => bytes_bits [b]
  | .classOf s => bit_write_string s
  | .stringOf s => bit_write_string s
  | .color c => bytes_bits [c.b, c.g, c.r, c.a]
  | .float bits32 => bytes_bits (u32_bytes bits32)
  | .rotator x y z =>
    bytes_bits (u32_bytes x) ++ bytes_bits (u32_bytes y) ++ bytes_bits (u32_bytes z)

/-- HashMap::remove: the removed value and the remaining table. -/
def alist_take {α : Type} (k : Str) :
    List (Str × α) → Option (α × List (Str × α))
  | [] => Option.none
  | (k2, v) :: rest =>
    if k2 = k then some (v, rest)
    else (alist_take k rest).map (fun q => (q.1, (k2, v) :: q.2))

/-- The property values of one brick entry of a component (src/write.rs lines
253-261): each declared property is removed from the brick's table and
written; a missing property is the `ComponentBrickError`. -/
def write_entry_props :
    List (Str × Str) → List (Str × UnrealType) → Except WErr (List Bool)
  | [], _ => .ok []
  | pr :: rest, props =>
    match alist_take pr.1 props with
    | Option.none => .error .componentBrickError
    | some (v, props2) => (write_entry_props rest props2).map (write_unreal v ++ ·)

/-- One component of the components section (src/write.rs lines 226-265): the
name on the byte stream, then one byte-aligned bit unit holding the version,
the brick indices (an empty array when no brick carries the component), the
property name/type table, and the property values of every carrying brick. -/
def write_component (brick_count : Nat)
    (component_bricks : List (Str × List (Nat × List (Str × UnrealType))))
    (name : Str) (component : Component) : Except WErr (List Nat) := do
  let idxBits ← match alist_get name component_bricks with
    | some brick_list => do
      let idx ← brick_list.foldlM
        (fun acc entry => (write_uint entry.1 (Nat.max brick_count 2)).map (acc ++ ·)) []
      pure (bit_write_i32 (brick_list.length : Int) ++ idx)
    | Option.none => pure (bit_write_i32 0)
  let props := component.properties
  let propBits := bit_write_i32 (props.length : Int) ++
    props.flatMap (fun pr => bit_write_string pr.1 ++ bit_write_string pr.2)
  let valueBits ← match alist_get name component_bricks with
    | some brick_list =>
      brick_list.foldlM
        (fun acc entry => (write_entry_props props entry.2).map (acc ++ ·)) []
    | Option.none => pure []
  pure (write_string name ++
    bits_to_bytes (pad_to_byte (bit_write_i32 component.version ++ idxBits ++
      propBits ++ valueBits)))

/-- The components section payload (src/write.rs lines 223-265): the component
count then each component in `SaveData.components` order. -/
def write_components_section (s : SaveData) : Except WErr (List Nat) := do
  let component_bricks := collect_component_bricks s.bricks
  s.components.foldlM
    (fun acc pr => (write_component s.bricks.length component_bricks pr.1 pr.2).map (acc ++ ·))
    (i32_bytes (s.components.length : Int))

/-- SaveWriter::write (src/write.rs lines 43-271), with compression disabled
(the `SaveWriter::uncompressed` constructor): magic bytes, container version
10, game version, the header-1, header-2, bricks and components sections in
the zero-compressed-size framing, and the plain preview between header 2 and
the bricks. The zlib encoder of the compressed path is an external library
and affects only the framing of the section bytes, never their content or
the writer's errors. -/
def SaveWriter.write (s : SaveData) : Except WErr (List Nat) := do
  let bricksPayload ← write_bricks_section s
  let componentsPayload ← write_components_section s
  pure ([0x42, 0x52, 0x53] ++ u16_bytes 10 ++ i32_bytes s.game_version ++
    write_uncompressed_section (write_header1_payload s) ++
    write_uncompressed_section (write_header2_payload s) ++
    write_preview s.preview ++
    write_uncompressed_section bricksPayload ++
    write_uncompressed_section componentsPayload)

/-! ## The reader (src/read.rs)

The reader state models `SaveReader`: the version fields, the three section
flags and the remaining input of the underlying byte source. Each operation
returns its result together with the updated state (`&mut self` in the
source). When an operation fails after its order guard, the returned state
carries the pre-call input; no claim concerns the exact consumption of a
failed parse, while a guard failure provably consumes nothing in source and
model alike. Zlib decompression (the external flate2 library) is an injected
function `inflate`, exactly as the spec scopes out external collaborators. -/

/-- Read errors (src/read.rs `ReadError`), plus a marker for Rust panics
(negative allocation sizes, out-of-range indexing), modelled explicitly. -/
inductive RdErr : Type
  | ioError : RdErr
  | badHeader : RdErr
  | invalidDataHeader1 : RdErr
  | invalidDataHeader2 : RdErr
  | badSectionReadOrder : RdErr
  | invalidCompression : RdErr
  | panicked : RdErr
deriving DecidableEq, Repr

/-- Lift an I/O-style failure (`Option`) into the reader error type. -/
def orIo {α : Type} : Option α → Except RdErr α
  | some a => .ok a
  | Option.none => .error .ioError

/-- Read one byte. -/
def read_u8 (input : List Nat) : Option (Nat × List Nat) :=
  match input with
  | [] => Option.none
  | b :: rest => some (b, rest)

/-- Read a little-endian `u16`. -/
def read_u16 (input : List Nat) : Option (Nat × List Nat) :=
  (take_exact 2 input).map (fun p => (le_value p.1, p.2))

/-- Read a little-endian `u32`. -/
def read_u32 (input : List Nat) : Option (Nat × List Nat) :=
  (take_exact 4 input).map (fun p => (le_value p.1, p.2))

/-- ReadExt::read_uuid: four little-endian `u32` words (see `Uuid`). -/
def read_uuid (input : List Nat) : Option (Uuid × List Nat) := do
  let (w0, r0) ← read_u32 input
  let (w1, r1) ← read_u32 r0
  let (w2, r2) ← read_u32 r1
  let (w3, r3) ← read_u32 r2
  pure (⟨w0, w1, w2, w3⟩, r3)

/-- ReadExt::read_array, element count first as an `i32` (a negative count
yields an empty loop, as Rust's `0..len` range does). -/
def read_array_go {α : Type} (f : List Nat → Option (α × List Nat)) :
    Nat → List Nat → Option (List α × List Nat)
  | 0, input => some ([], input)
  | n + 1, input => do
    let (a, rest) ← f input
    let (l, rest2) ← read_array_go f n rest
    pure (a :: l, rest2)

/-- ReadExt::read_array. -/
def read_array {α : Type} (f : List Nat → Option (α × List Nat))
    (input : List Nat) : Option (List α × List Nat) := do
  let (len, rest) ← read_i32 input
  read_array_go f len.toNat rest

/-- BitReadExt::read_array (bit-stream variant). -/
def bit_read_array_go {α : Type} (f : List Bool → Option (α × List Bool)) :
    Nat → List Bool → Option (List α × List Bool)
  | 0, l => some ([], l)
  | n + 1, l => do
    let (a, rest) ← f l
    let (xs, rest2) ← bit_read_array_go f n rest
    pure (a :: xs, rest2)

/-- BitReadExt::read_array. -/
def bit_read_array {α : Type} (f : List Bool → Option (α × List Bool))
    (l : List Bool) : Option (List α × List Bool) := do
  let (len, rest) ← bit_read_i32 l
  bit_read_array_go f len.toNat rest

/-- The reader state (`SaveReader`): version fields, section flags, remaining
input. -/
structure RState where
  version : Nat
  game_version : Int
  header1_read : Bool
  header2_read : Bool
  preview_read : Bool
  input : List Nat
deriving DecidableEq, Repr

/-- SaveReader::new (src/read.rs lines 51-73): magic bytes, container version,
game version for version ≥ 8; `preview_read` starts true below version 8. -/
def SaveReader.new (input : List Nat) : Except RdErr RState := do
  let (magic, r0) ← orIo (take_exact 3 input)
  if magic ≠ [0x42, 0x52, 0x53] then .error .badHeader
  else do
    let (version, r1) ← orIo (read_u16 r0)
    let (game_version, r2) ←
      if 8 ≤ version then orIo (read_i32 r1)
      else pure ((0 : Int), r1)
    pure ⟨version, game_version, false, false, decide (version < 8), r2⟩

/-- `read_compressed` (src/read.rs lines 467-489): the two size fields, the
validity check, then either the raw bytes or `inflate` applied to the
compressed bytes. Returns the section buffer, its size field and the
remaining outer input. -/
def read_compressed (inflate : List Nat → Nat → Option (List Nat))
    (input : List Nat) : Except RdErr (List Nat × Int × List Nat) := do
  let (uncompressed_size, r0) ← orIo (read_i32 input)
  let (compressed_size, r1) ← orIo (read_i32 r0)
  if uncompressed_size < 0 ∨ compressed_size < 0 ∨ uncompressed_size < compressed_size then
    .error .invalidCompression
  else if compressed_size = 0 then do
    let (bytes, r2) ← orIo (take_exact uncompressed_size.toNat r1)
    pure (bytes, uncompressed_size, r2)
  else do
    let (compressed, r2) ← orIo (take_exact compressed_size.toNat r1)
    let bytes ← orIo (inflate compressed uncompressed_size.toNat)
    pure (bytes, uncompressed_size, r2)

/-- `skip_compressed` (src/read.rs lines 492-511): the size fields and check,
then an `io::copy` of up to that many bytes into a sink (which succeeds even
when the input runs short). -/
def skip_compressed (input : List Nat) : Except RdErr (List Nat) := do
  let (uncompressed_size, r0) ← orIo (read_i32 input)
  let (compressed_size, r1) ← orIo (read_i32 r0)
  if uncompressed_size < 0 ∨ compressed_size < 0 ∨ uncompressed_size < compressed_size then
    .error .invalidCompression
  else
    pure (r1.drop (if compressed_size = 0 then uncompressed_size.toNat
      else compressed_size.toNat))

/-- SaveReader::skip_header1 (src/read.rs lines 76-80): no order guard. -/
def SaveReader.skip_header1 (st : RState) : Except RdErr Unit × RState :=
  match skip_compressed st.input with
  | .ok rest => (.ok (), { st with input := rest, header1_read := true })
  | .error e => (.error e, st)

/-- The parse of the decompressed header-1 buffer (src/read.rs lines 86-139). -/
def parse_header1 (version : Nat) (buf : List Nat) : Except RdErr Header1 := do
  let (map, b0) ← orIo (read_string buf)
  let (author_name, b1) ← orIo (read_string b0)
  let (description, b2) ← orIo (read_string b1)
  let (author_uuid, b3) ← orIo (read_uuid b2)
  let (host, b4) ←
    if 8 ≤ version then do
      let (hname, x0) ← orIo (read_string b3)
      let (hid, x1) ← orIo (read_uuid x0)
      pure (some (User.mk hname hid), x1)
    else pure ((Option.none : Option User), b3)
  let (save_time, b5) ←
    if 4 ≤ version then
      (orIo (take_exact 8 b4)).map (fun p => (some p.1, p.2))
    else pure ((Option.none : Option (List Nat)), b4)
  let (brick_count, _) ← orIo (read_i32 b5)
  if brick_count < 0 then .error .invalidDataHeader1
  else
    pure ⟨map, description, ⟨author_name, author_uuid⟩, host,
      save_time.getD (List.replicate 8 0), brick_count.toNat⟩

/-- SaveReader::read_header1 (src/read.rs lines 83-140): no order guard. -/
def SaveReader.read_header1 (inflate : List Nat → Nat → Option (List Nat))
    (st : RState) : Except RdErr Header1 × RState :=
  match read_compressed inflate st.input with
  | .error e => (.error e, st)
  | .ok (buf, _, rest) =>
    match parse_header1 st.version buf with
    | .error e => (.error e, st)
    | .ok h1 => (.ok h1, { st with input := rest, header1_read := true })

/-- SaveReader::skip_header2 (src/read.rs lines 143-147): no order guard —
the section is skipped and the flag set regardless of whether header 1 was
consumed. -/
def SaveReader.skip_header2 (st : RState) : Except RdErr Unit × RState :=
  match skip_compressed st.input with
  | .ok rest => (.ok (), { st with input := rest, header2_read := true })
  | .error e => (.error e, st)

/-- The default material palette for versions before 2. -/
def DEFAULT_MATERIALS : List Str :=
  [strLit "BMC_Hologram", strLit "BMC_Plastic", strLit "BMC_Glow",
   strLit "BMC_Metallic", strLit "BMC_Glass"]

/-- One brick owner in header 2 (src/read.rs lines 183-197). -/
def read_brick_owner (version : Nat) (input : List Nat) :
    Option (BrickOwner × List Nat) := do
  let (id, r0) ← read_uuid input
  let (name, r1) ← read_string r0
  if 8 ≤ version then do
    let (bricks, r2) ← read_i32 r1
    pure (⟨name, id, (bricks % 2 ^ 32).toNat⟩, r2)
  else pure (⟨name, id, 0⟩, r1)

/-- The parse of the decompressed header-2 buffer (src/read.rs lines 157-217). -/
def parse_header2 (version : Nat) (buf : List Nat) : Except RdErr Header2 := do
  let (mods, b0) ← orIo (read_array read_string buf)
  let (brick_assets, b1) ← orIo (read_array read_string b0)
  let (colors, b2) ← orIo (read_array (fun l =>
    (take_exact 4 l).bind (fun p =>
      match p.1 with
      | [x0, x1, x2, x3] => some (Color.from_bytes_bgra x0 x1 x2 x3, p.2)
      | _ => Option.none)) b1)
  let (materials, b3) ←
    if 2 ≤ version then orIo (read_array read_string b2)
    else pure (DEFAULT_MATERIALS, b2)
  let (brick_owners, b4) ←
    if 3 ≤ version then orIo (read_array (read_brick_owner version) b3)
    else pure (([] : List BrickOwner), b3)
  let (physical_materials, _) ←
    if 9 ≤ version then orIo (read_array read_string b4)
    else pure (([] : List Str), b4)
  pure ⟨mods, brick_assets, colors, materials, brick_owners, physical_materials⟩

/-- SaveReader::read_header2 (src/read.rs lines 150-218): guarded on
`header1_read`. -/
def SaveReader.read_header2 (inflate : List Nat → Nat → Option (List Nat))
    (st : RState) : Except RdErr Header2 × RState :=
  if st.header1_read = false then (.error .badSectionReadOrder, st)
  else
    match read_compressed inflate st.input with
    | .error e => (.error e, st)
    | .ok (buf, _, rest) =>
      match parse_header2 st.version buf with
      | .error e => (.error e, st)
      | .ok h2 => (.ok h2, { st with input := rest, header2_read := true })

/-- Preview::from_reader (src/save.rs lines 174-189): the type byte, then for
nonzero types an `i32` length and that many bytes; a negative length is a
`vec![0; len as usize]` allocation panic. -/
def preview_from_reader (input : List Nat) : Except RdErr (Preview × List Nat) := do
  let (mode, r0) ← orIo (read_u8 input)
  if mode = 0 then pure (.none, r0)
  else do
    let (len, r1) ← orIo (read_i32 r0)
    if len < 0 then .error .panicked
    else do
      let (bytes, r2) ← orIo (take_exact len.toNat r1)
      if mode = 1 then pure (.png bytes, r2)
      else if mode = 2 then pure (.jpeg bytes, r2)
      else pure (.unknown mode bytes, r2)

/-- SaveReader::read_preview (src/read.rs lines 223-235): guarded on
`header2_read`; below version 8 it returns `Preview::None` without reading or
setting the flag (the flag already starts true there). -/
def SaveReader.read_preview (st : RState) : Except RdErr Preview × RState :=
  if st.header2_read = false then (.error .badSectionReadOrder, st)
  else if st.version < 8 then (.ok .none, st)
  else
    match preview_from_reader st.input with
    | .error e => (.error e, st)
    | .ok (p, rest) => (.ok p, { st with input := rest, preview_read := true })

/-- SaveReader::skip_preview (src/read.rs lines 238-254): guarded on
`header2_read`; a nonzero type byte is followed by an `i32` length and an
`io::copy` of up to `len as u64` bytes (a negative length reinterprets as a
huge `u64` and the copy drains the source without failing). -/
def SaveReader.skip_preview (st : RState) : Except RdErr Unit × RState :=
  if st.header2_read = false then (.error .badSectionReadOrder, st)
  else if st.version < 8 then (.ok (), st)
  else
    match (do
      let (mode, r0) ← orIo (read_u8 st.input)
      if mode ≠ 0 then do
        let (len, r1) ← orIo (read_i32 r0)
        pure (r1.drop (len % 2 ^ 64).toNat)
      else pure r0 : Except RdErr (List Nat)) with
    | .error e => (.error e, st)
    | .ok rest => (.ok (), { st with input := rest, preview_read := true })

/-- One brick of the brick stream (the loop body of src/read.rs lines
287-379), for the reader's container version and the palette sizes. -/
def read_one_brick (version : Nat)
    (brick_asset_count material_count physical_material_count colors_len : Nat)
    (l : List Bool) : Except RdErr (Brick × List Bool) := do
  let (asset_name_index, b0) ← orIo (read_uint brick_asset_count l)
  let (szbit, b1) ← orIo (read_bit b0)
  let (size, b2) ←
    if szbit then do
      let (x, x0) ← orIo (read_uint_packed b1)
      let (y, x1) ← orIo (read_uint_packed x0)
      let (z, x2) ← orIo (read_uint_packed x1)
      pure (Size.procedural x y z, x2)
    else pure (Size.empty, b1)
  let (px, b3) ← orIo (read_int_packed b2)
  let (py, b4) ← orIo (read_int_packed b3)
  let (pz, b5) ← orIo (read_int_packed b4)
  let (orientation, b6) ← orIo (read_uint 24 b5)
  let direction := Direction.of_nat ((orientation >>> 2) % 6)
  let rotation := Rotation.of_nat (orientation &&& 3)
  let (collision, b7) ←
    if 10 ≤ version then do
      let (p0, x0) ← orIo (read_bit b6)
      let (w0, x1) ← orIo (read_bit x0)
      let (i0, x2) ← orIo (read_bit x1)
      let (t0, x3) ← orIo (read_bit x2)
      pure (Collision.mk p0 w0 i0 t0, x3)
    else do
      let (v0, x0) ← orIo (read_bit b6)
      pure (Collision.for_all v0, x0)
  let (visibility, b8) ← orIo (read_bit b7)
  let (material_index, b9) ←
    if 8 ≤ version then orIo (read_uint material_count b8)
    else do
      let (mbit, x0) ← orIo (read_bit b8)
      if mbit then orIo (read_uint_packed x0)
      else pure (1, x0)
  let (physical_index, b10) ←
    if 9 ≤ version then orIo (read_uint physical_material_count b9)
    else pure (0, b9)
  let (material_intensity, b11) ←
    if 9 ≤ version then orIo (read_uint 11 b10)
    else pure (5, b10)
  let (cbit, b12) ← orIo (read_bit b11)
  let (color, b13) ←
    if cbit then
      if 9 ≤ version then do
        let (bytes, x0) ← orIo (read_bytes_bits 3 b12)
        match bytes with
        | [r, g, b2] => pure (BrickColor.unique (Color.from_bytes_rgb r g b2), x0)
        | _ => .error .ioError
      else do
        let (bytes, x0) ← orIo (read_bytes_bits 4 b12)
        match bytes with
        | [x, y, z, w] => pure (BrickColor.unique (Color.from_bytes_bgra x y z w), x0)
        | _ => .error .ioError
    else do
      let (ind, x0) ← orIo (read_uint colors_len b12)
      pure (BrickColor.index ind, x0)
  let (owner_index, b14) ←
    if 3 ≤ version then orIo (read_uint_packed b13)
    else pure (0, b13)
  pure (⟨asset_name_index, size, (px, py, pz), direction, rotation, collision,
    visibility, material_index, physical_index, material_intensity, color,
    owner_index, []⟩, b14)

/-- The brick loop (src/read.rs lines 277-380): byte-align, stop as soon as
`brick_count` bricks were read or the byte cursor reached the end of the
decompressed buffer (with the buffer length a whole number of bytes, the
aligned cursor has reached the end exactly when no bits remain), else read
one brick. The fuel is `brick_count - bricks.len()`, which the loop condition
makes exact. -/
def read_bricks_loop (version : Nat)
    (brick_asset_count material_count physical_material_count colors_len : Nat) :
    Nat → List Bool → Except RdErr (List Brick)
  | 0, _ => .ok []
  | fuel + 1, l =>
    let l2 := l.drop (l.length % 8)
    if l2.isEmpty then .ok []
    else do
      let (brick, rest) ← read_one_brick version brick_asset_count material_count
        physical_material_count colors_len l2
      let bricks ← read_bricks_loop version brick_asset_count material_count
        physical_material_count colors_len fuel rest
      pure (brick :: bricks)

/-- HashMap::insert: replace the value under the key or append the pair. -/
def alist_put {α : Type} (k : Str) (v : α) : List (Str × α) → List (Str × α)
  | [] => [(k, v)]
  | (k2, v2) :: rest =>
    if k2 = k then (k2, v) :: rest else (k2, v2) :: alist_put k v rest

/-- BitReadExt::read_unreal_type (src/ext/read.rs lines 185-211), keyed by the
declared type name; an unknown name is an InvalidData I/O error. -/
def read_unreal_type (t : Str) (l : List Bool) : Option (UnrealType × List Bool) :=
  if t = strLit "Class" ∨ t = strLit "Object" then
    (bit_read_string l).map (fun p => (.classOf p.1, p.2))
  else if t = strLit "String" then
    (bit_read_string l).map (fun p => (.stringOf p.1, p.2))
  else if t = strLit "Boolean" then
    (bit_read_i32 l).map (fun p => (.boolean (p.1 ≠ 0), p.2))
  else if t = strLit "Float" then
    (read_bytes_bits 4 l).map (fun p => (.float (le_value p.1), p.2))
  else if t = strLit "Color" then
    (read_bytes_bits 4 l).bind (fun p =>
      match p.1 with
      | [x0, x1, x2, x3] => some (.color (Color.from_bytes_bgra x0 x1 x2 x3), p.2)
      | _ => Option.none)
  else if t = strLit "Byte" then
    (read_bytes_bits 1 l).bind (fun p =>
      match p.1 with
      | [b] => some (.byte b, p.2)
      | _ => Option.none)
  else if t = strLit "Rotator" then do
    let (x, r0) ← read_bytes_bits 4 l
    let (y, r1) ← read_bytes_bits 4 r0
    let (z, r2) ← read_bytes_bits 4 r1
    pure (.rotator (le_value x) (le_value y) (le_value z), r2)
  else Option.none

/-- The property tables of the bricks listed by one component (src/read.rs
lines 406-413): for each listed brick index, one value per declared property
is decoded and stored into that brick's component entry; an out-of-range
index is an indexing panic. -/
def apply_component_values (name : Str) (properties : List (Str × Str)) :
    List Nat → List Brick → List Bool → Except RdErr (List Brick × List Bool)
  | [], bricks, l => .ok (bricks, l)
  | i :: rest, bricks, l => do
    let (props, l2) ← properties.foldlM (fun acc pr => do
        let (v, l3) ← orIo (read_unreal_type pr.2 acc.2)
        pure (alist_put pr.1 v acc.1, l3))
      (([] : List (Str × UnrealType)), l)
    if h : i < bricks.length then
      let brick := bricks.get ⟨i, h⟩
      let bricks2 := bricks.set i { brick with components := alist_put name props brick.components }
      apply_component_values name properties rest bricks2 l2
    else .error .panicked

/-- One component of the components section (src/read.rs lines 390-423):
name, the explicit byte length of the inner bit sub-stream, then inside the
sub-stream the version, brick indices, property table and values. -/
def read_one_component (brick_count : Nat) (bricks : List Brick)
    (input : List Nat) :
    Except RdErr (Str × Component × List Brick × List Nat) := do
  let (name, r0) ← orIo (read_string input)
  let (bit_len, r1) ← orIo (read_i32 r0)
  if bit_len < 0 then .error .panicked
  else do
    let (bit_bytes, r2) ← orIo (take_exact bit_len.toNat r1)
    let inner := bytes_bits bit_bytes
    let (cversion, i0) ← orIo (bit_read_i32 inner)
    let (brick_indices, i1) ← orIo (bit_read_array
      (read_uint (Nat.max brick_count 2)) i0)
    let (properties, i2) ← orIo (bit_read_array (fun l => do
        let (a, l1) ← bit_read_string l
        let (b, l2) ← bit_read_string l1
        pure ((a, b), l2)) i1)
    let (bricks2, _) ← apply_component_values name properties brick_indices bricks i2
    pure (name, ⟨cversion, brick_indices, properties⟩, bricks2, r2)

/-- The component loop (src/read.rs lines 388-423). -/
def read_components_loop (brick_count : Nat) :
    Nat → List Brick → List (Str × Component) → List Nat →
      Except RdErr (List Brick × List (Str × Component))
  | 0, bricks, comps, _ => .ok (bricks, comps)
  | n + 1, bricks, comps, input => do
    let (name, comp, bricks2, rest) ← read_one_component brick_count bricks input
    read_components_loop brick_count n bricks2 (alist_put name comp comps) rest

/-- SaveReader::read_bricks (src/read.rs lines 257-427): guarded on
`preview_read` and `header2_read`; the bricks section, then for version ≥ 8
the components section. -/
def SaveReader.read_bricks (inflate : List Nat → Nat → Option (List Nat))
    (header1 : Header1) (header2 : Header2) (st : RState) :
    Except RdErr (List Brick × List (Str × Component)) × RState :=
  if st.preview_read = false ∨ st.header2_read = false then
    (.error .badSectionReadOrder, st)
  else
    match (do
      let (buf, _, rest) ← read_compressed inflate st.input
      let bricks ← read_bricks_loop st.version
        (Nat.max header2.brick_assets.length 2)
        (Nat.max header2.materials.length 2)
        (Nat.max header2.physical_materials.length 2)
        header2.colors.length
        header1.brick_count (bytes_bits buf)
      if 8 ≤ st.version then do
        let (cbuf, _, rest2) ← read_compressed inflate rest
        let (n, c0) ← orIo (read_i32 cbuf)
        let (bricks2, comps) ← read_components_loop bricks.length n.toNat bricks [] c0
        pure ((bricks2, comps), rest2)
      else
        pure ((bricks, ([] : List (Str × Component))), rest) :
        Except RdErr ((List Brick × List (Str × Component)) × List Nat)) with
    | .error e => (.error e, st)
    | .ok (result, rest) => (.ok result, { st with input := rest })

/-- SaveReader::read_all (src/read.rs lines 430-445). -/
def SaveReader.read_all (inflate : List Nat → Nat → Option (List Nat))
    (st : RState) : Except RdErr SaveData × RState :=
  match SaveReader.read_header1 inflate st with
  | (.error e, st1) => (.error e, st1)
  | (.ok header1, st1) =>
    match SaveReader.read_header2 inflate st1 with
    | (.error e, st2) => (.error e, st2)
    | (.ok header2, st2) =>
      match SaveReader.read_preview st2 with
      | (.error e, st3) => (.error e, st3)
      | (.ok preview, st3) =>
        match SaveReader.read_bricks inflate header1 header2 st3 with
        | (.error e, st4) => (.error e, st4)
        | (.ok (bricks, components), st4) =>
          (.ok ⟨st4.version, st4.game_version, header1, header2, preview,
            bricks, components⟩, st4)

/-- Construction plus `read_all`, as a function of the file bytes. -/
def read_all_bytes (inflate : List Nat → Nat → Option (List Nat))
    (bytes : List Nat) : Except RdErr SaveData :=
  match SaveReader.new bytes with
  | .error e => .error e
  | .ok st => (SaveReader.read_all inflate st).1

/-- The trivial injected decompressor: every claim settled here exercises only
uncompressed sections, which never consult it. -/
def no_inflate : List Nat → Nat → Option (List Nat) := fun _ _ => Option.none

/-! ## Invariants and well-formedness of a save -/

/-- The index invariants of spec §3 that keep every `write_uint` call of the
writer in range (invariants 1, 2, 3 and 6; invariant 7 on the orientation
holds for every brick because directions and rotations are enumerations). -/
def index_invariants (s : SaveData) : Bool :=
  s.bricks.all (fun b =>
    b.asset_name_index < s.header2.brick_assets.length &&
    (match b.color with
     | .index i => i < s.header2.colors.length
     | .unique _ => true) &&
    b.material_index < s.header2.materials.length &&
    b.physical_index < s.header2.physical_materials.length &&
    b.material_intensity < 11)

/-- Key uniqueness of every map of the model — a fact Rust's `HashMap` types
provide for free, made explicit over the association lists. -/
def wf_save (s : SaveData) : Bool :=
  ((s.components.map Prod.fst).Nodup : Bool) &&
  s.components.all (fun pr => ((pr.2.properties.map Prod.fst).Nodup : Bool)) &&
  s.bricks.all (fun b =>
    ((b.components.map Prod.fst).Nodup : Bool) &&
    b.components.all (fun kv => ((kv.2.map Prod.fst).Nodup : Bool)))

/-- Some brick carries an entry under a component name declared in
`SaveData.components` whose property table is missing a key declared in that
component's `properties` — the condition of claim C9. -/
def missing_component_key (s : SaveData) : Bool :=
  s.components.any (fun pr =>
    s.bricks.any (fun b =>
      match alist_get pr.1 b.components with
      | some table => pr.2.properties.any (fun q => (alist_get q.1 table).isNone)
      | Option.none => false))

/-- The failing input of claim C1: a default save whose description is the
one-character string `"日"`. Its invariants hold vacuously (it has no
bricks). -/
def roundtrip_failing_save : SaveData :=
  { SaveData.default with
      header1 := { Header1.default with description := strLit "日" } }

/-- Shorthand for the entry type of `component_bricks`. -/
abbrev CBEntry : Type := Nat × List (Str × UnrealType)

/-- The per-brick inner fold of `collect_component_bricks`. -/
def push_brick_components (i : Nat) (kvs : List (Str × List (Str × UnrealType)))
    (acc : List (Str × List CBEntry)) : List (Str × List CBEntry) :=
  kvs.foldl (fun acc2 kv => push_component_entry kv.1 (i, kv.2) acc2) acc

/-- A save whose one brick declares the component "C" with an empty property
table while the save-level component "C" declares the property "P": the C9
error condition. The brick uses a unique color because the default header 2
has no color palette. -/
def c9_bad_save : SaveData :=
  { SaveData.default with
      bricks := [{ Brick.default with
        color := BrickColor.unique ⟨0, 0, 0, 255⟩,
        components := [(strLit "C", [])] }],
      components := [(strLit "C", ⟨1, [], [(strLit "P", strLit "Bool")]⟩)] }

/-! ## General lemmas about the primitives -/

lemma lor_two_pow_of_lt {a i : Nat} (h : a < 2 ^ i) : a ||| 2 ^ i = a + 2 ^ i := by
  apply Nat.eq_of_testBit_eq
  intro j
  rw [Nat.testBit_lor, Nat.testBit_two_pow]
  rcases lt_trichotomy i j with hj | hj | hj
  · have hne : ¬ (i = j) := by omega
    have hlt : a + 2 ^ i < 2 ^ j := by
      have h1 : 2 ^ (i + 1) ≤ 2 ^ j := Nat.pow_le_pow_right (by norm_num) (by omega)
      have h2 := Nat.pow_succ 2 i
      omega
    have ha : a < 2 ^ j := by omega
    simp [Nat.testBit_lt_two_pow hlt, Nat.testBit_lt_two_pow ha, hne]
  · subst hj
    have h1 : (a + 2 ^ i) / 2 ^ i = 1 := by
      rw [Nat.add_div_right _ (Nat.pos_pow_of_pos _ (by norm_num)), Nat.div_eq_of_lt h]
    rw [Nat.testBit_to_div_mod (x := a + 2 ^ i), h1]
    simp
  · have hne : ¬ (i = j) := by omega
    have h2j : 0 < 2 ^ j := Nat.pos_pow_of_pos _ (by norm_num)
    have hij : 2 ^ i = 2 ^ (i - j) * 2 ^ j := by
      rw [← pow_add]
      congr 1
      omega
    have hdiv : (a + 2 ^ i) / 2 ^ j = a / 2 ^ j + 2 ^ (i - j) := by
      rw [hij, Nat.add_mul_div_right _ _ h2j]
    have heven : 2 ^ (i - j) % 2 = 0 := by
      have hs : 2 ^ (i - j) = 2 ^ (i - j - 1) * 2 := by
        rw [← pow_succ]
        congr 1
        omega
      omega
    have hmod : (a / 2 ^ j + 2 ^ (i - j)) % 2 = a / 2 ^ j % 2 := by omega
    rw [decide_eq_false hne, Bool.or_false, Nat.testBit_to_div_mod,
      Nat.testBit_to_div_mod (x := a + 2 ^ i), hdiv, hmod]

lemma read_uint_loop_stop {max value mask : Nat}
    (h : ¬ (value + mask < max ∧ mask ≠ 0)) (l : List Bool) :
    read_uint_loop max value mask l = some (value, l) := by
  cases l <;> simp [read_uint_loop, h]

lemma mod_two_pow_succ_of_testBit (v i : Nat) :
    v % 2 ^ (i + 1) = v % 2 ^ i + (if v.testBit i then 2 ^ i else 0) := by
  have h := @Nat.mod_mul (2 ^ i) 2 v
  rw [Nat.testBit_to_div_mod]
  rcases Nat.mod_two_eq_zero_or_one (v / 2 ^ i) with h2 | h2 <;>
    simp [pow_succ, h, h2]

lemma uint_lockstep (max v : Nat) (hmax : max ≤ 2 ^ 32) (hv : v < max) (rest : List Bool) :
    ∀ f i acc, i + f = 33 → acc = v % 2 ^ i →
      read_uint_loop max acc (2 ^ i % 2 ^ 32)
        (write_uint_loop max v f acc (2 ^ i % 2 ^ 32) ++ rest) = some (v, rest) := by
  intro f
  induction f with
  | zero =>
    intro i acc hif hacc
    have hi : i = 33 := by omega
    subst hi
    have hmask : 2 ^ 33 % 2 ^ 32 = 0 := by norm_num
    have hvv : acc = v := by
      rw [hacc, Nat.mod_eq_of_lt (by norm_num at hmax ⊢; omega)]
    rw [write_uint_loop, hmask, List.nil_append,
      read_uint_loop_stop (by simp), hvv]
  | succ f ih =>
    intro i acc hif hacc
    by_cases hcond : acc + 2 ^ i % 2 ^ 32 < max ∧ 2 ^ i % 2 ^ 32 ≠ 0
    · have hi32 : i < 32 := by
        rcases Nat.lt_or_ge i 32 with h | h
        · exact h
        · have hi : i = 32 := by omega
          subst hi
          simp at hcond
      have hmask : 2 ^ i % 2 ^ 32 = 2 ^ i :=
        Nat.mod_eq_of_lt (Nat.pow_lt_pow_right (by norm_num) hi32)
      have haccb : acc < 2 ^ i := hacc ▸ Nat.mod_lt _ (Nat.pos_pow_of_pos _ (by norm_num))
      have hb : (v &&& 2 ^ i % 2 ^ 32 ≠ 0 : Bool) = v.testBit i := by
        rw [hmask, Nat.and_two_pow]
        cases hbit : v.testBit i <;> simp [hbit]
      have hmask2 : (2 ^ i % 2 ^ 32) * 2 % 2 ^ 32 = 2 ^ (i + 1) % 2 ^ 32 := by
        rw [hmask, ← pow_succ]
      rw [write_uint_loop, if_pos hcond]
      rw [List.cons_append]
      rw [read_uint_loop, if_pos hcond]
      rw [hb, hmask2]
      rcases hbit : v.testBit i with _ | _
      · simp only [Bool.false_eq_true, if_false, reduceIte]
        rw [if_neg (by rw [hmask, Nat.and_two_pow, hbit]; simp)]
        apply ih (i + 1) acc (by omega)
        rw [hacc, mod_two_pow_succ_of_testBit, hbit]
        simp
      · simp only [if_true, reduceIte]
        have hupd : acc ||| 2 ^ i % 2 ^ 32 = acc + 2 ^ i := by
          rw [hmask, lor_two_pow_of_lt haccb]
        rw [if_pos (by rw [hmask, Nat.and_two_pow, hbit]; simp), hupd]
        apply ih (i + 1) (acc + 2 ^ i) (by omega)
        rw [hacc, mod_two_pow_succ_of_testBit, hbit]
        simp
    · rw [write_uint_loop, if_neg hcond, List.nil_append, read_uint_loop_stop hcond]
      congr 1
      ext1
      · rcases Nat.eq_zero_or_pos (2 ^ i % 2 ^ 32) with hm0 | hmpos
        · have h32 : 32 ≤ i := by
            by_contra hlt
            push_neg at hlt
            rw [Nat.mod_eq_of_lt (Nat.pow_lt_pow_right (by norm_num) hlt)] at hm0
            exact absurd hm0 (Nat.pos_iff_ne_zero.mp (Nat.pos_pow_of_pos _ (by norm_num)))
          have hvlt : v < 2 ^ i := lt_of_lt_of_le (lt_of_lt_of_le hv hmax)
            (Nat.pow_le_pow_right (by norm_num) h32)
          rw [hacc, Nat.mod_eq_of_lt hvlt]
        · have hi32 : i < 32 := by
            by_contra hge
            push_neg at hge
            have hieq : i = 32 := by omega
            subst hieq
            simp at hmpos
          have hmask : 2 ^ i % 2 ^ 32 = 2 ^ i :=
            Nat.mod_eq_of_lt (Nat.pow_lt_pow_right (by norm_num) hi32)
          rw [hmask] at hcond
          have hge : max ≤ acc + 2 ^ i := by
            by_contra hlt
            push_neg at hlt
            exact hcond ⟨hlt, Nat.pos_iff_ne_zero.mp (Nat.pos_pow_of_pos _ (by norm_num))⟩
          have hdm := Nat.div_add_mod v (2 ^ i)
          rcases Nat.eq_zero_or_pos (v / 2 ^ i) with hq | hq
          · rw [hq, Nat.mul_zero, Nat.zero_add] at hdm
            rw [hacc, hdm]
          · have hmul : 2 ^ i ≤ 2 ^ i * (v / 2 ^ i) := Nat.le_mul_of_pos_right _ hq
            rw [hacc]
            omega
      · rfl

set_option maxRecDepth 4000 in
lemma bits_value_byte_bits : ∀ b < 2 ^ 8, bits_value (byte_bits b) = b := by decide

lemma bytes_bits_cons (b : Nat) (rest : List Nat) :
    bytes_bits (b :: rest) = byte_bits b ++ bytes_bits rest := rfl

lemma byte_bits_explicit (b : Nat) :
    byte_bits b = [b.testBit 0, b.testBit 1, b.testBit 2, b.testBit 3,
      b.testBit 4, b.testBit 5, b.testBit 6, b.testBit 7] := rfl

lemma read_byte_bits_of_byte {b : Nat} (hb : b < 2 ^ 8) (rest : List Bool) :
    read_byte_bits (byte_bits b ++ rest) = some (b, rest) := by
  rw [byte_bits_explicit]
  simp only [List.cons_append, List.nil_append, read_byte_bits]
  rw [← byte_bits_explicit, bits_value_byte_bits b hb]

lemma read_bytes_bits_bytes :
    ∀ (n : Nat) (bs : List Nat), (∀ b ∈ bs, b < 2 ^ 8) →
    read_bytes_bits n (bytes_bits bs) =
      (take_exact n bs).map (fun p => (p.1, bytes_bits p.2)) := by
  intro n
  induction n with
  | zero =>
    intro bs hb
    simp [read_bytes_bits, take_exact]
  | succ n ih =>
    intro bs hb
    cases bs with
    | nil =>
      simp [bytes_bits, read_bytes_bits, read_byte_bits, take_exact]
    | cons b rest =>
      have hb0 : b < 2 ^ 8 := hb b (by simp)
      have hbr : ∀ x ∈ rest, x < 2 ^ 8 := fun x hx => hb x (by simp [hx])
      rw [bytes_bits_cons, read_bytes_bits, read_byte_bits_of_byte hb0]
      dsimp only
      rw [ih rest hbr]
      by_cases hlen : n ≤ rest.length
      · rw [take_exact, if_pos hlen, take_exact, if_pos (by simpa using Nat.succ_le_succ hlen)]
        simp
      · rw [take_exact, if_neg hlen, take_exact,
          if_neg (by simp; omega)]
        simp

lemma bit_read_u16s_bytes :
    ∀ (n : Nat) (bs : List Nat), (∀ b ∈ bs, b < 2 ^ 8) →
    bit_read_u16s n (bytes_bits bs) =
      (read_u16s n bs).map (fun p => (p.1, bytes_bits p.2)) := by
  intro n
  induction n with
  | zero =>
    intro bs hb
    simp [bit_read_u16s, read_u16s]
  | succ n ih =>
    intro bs hb
    rw [bit_read_u16s, bit_read_u16, read_bytes_bits_bytes 2 bs hb]
    match bs with
    | [] => simp [take_exact, read_u16s]
    | [a] => simp [take_exact, read_u16s]
    | a :: b :: rest =>
      have hbr : ∀ x ∈ rest, x < 2 ^ 8 := fun x hx => hb x (by simp [hx])
      rw [take_exact, if_pos (by simp)]
      simp only [Option.map_some']
      simp only [read_u16s, ih rest hbr]
      cases hres : read_u16s n rest with
      | none => simp [ih rest hbr, hres]
      | some p => simp [ih rest hbr, hres]

lemma bit_read_i32_bytes (bs : List Nat) (hb : ∀ b ∈ bs, b < 2 ^ 8) :
    bit_read_i32 (bytes_bits bs) = (read_i32 bs).map (fun p => (p.1, bytes_bits p.2)) := by
  rw [bit_read_i32, read_i32, read_bytes_bits_bytes 4 bs hb]
  cases h : take_exact 4 bs with
  | none => simp
  | some p => simp

lemma take_exact_eq {α : Type} {n : Nat} {l a b : List α}
    (h : take_exact n l = some (a, b)) :
    a = l.take n ∧ b = l.drop n ∧ n ≤ l.length := by
  rw [take_exact] at h
  split at h
  · cases h
    exact ⟨rfl, rfl, by assumption⟩
  · exact absurd h (by simp)

lemma read_i32_parts {bs : List Nat} {v : Int} {rest : List Nat}
    (h : read_i32 bs = some (v, rest)) : rest = bs.drop 4 := by
  rw [read_i32] at h
  cases hte : take_exact 4 bs with
  | none => rw [hte] at h; exact absurd h (by simp)
  | some p =>
    rw [hte] at h
    simp only [Option.map_some'] at h
    cases h
    exact (take_exact_eq hte).2.1


/-! ## Claim theorems: the string codec and variable-width integers -/

/-- C2: the claim states that for every Unicode string `s`, decoding
`write_string s` with `read_string` yields `s` again. This fails on the code:
for the one-character string `"日"` the writer emits the prefix `-3` (its
negated UTF-8 byte length), and the byte-stream reader rejects any odd `-L`
with an InvalidData error, so the round trip fails instead of returning the
string. -/
theorem c2_string_roundtrip_fails_on_nonascii :
    read_string (write_string (strLit "日")) = none := by
  decide

/-- C3: the claim states that `write_string` emits `L = -(UTF-16 code units)`
(for `"日本語"`: `-3`, serialized `FD FF FF FF`). The code instead emits the
negated UTF-8 byte length (`-9`, serialized `F7 FF FF FF`), followed by the
six bytes of UTF-16LE and a null byte. This theorem evaluates the writer at
the failing input, and records what the claimed prefix bytes would have been. -/
theorem c3_nonascii_prefix_is_negated_utf8_length :
    write_string (strLit "日本語") =
      i32_bytes (-9) ++ [0xE5, 0x65, 0x2C, 0x67, 0x9E, 0x8A] ++ [0] ∧
    i32_bytes (-9) = [0xF7, 0xFF, 0xFF, 0xFF] ∧
    i32_bytes (-3) = [0xFD, 0xFF, 0xFF, 0xFF] := by
  refine ⟨by decide, by decide, by decide⟩

/-- C8: for every `max ≥ 2` (a `u32`, hence `max ≤ 2 ^ 32`) and every
`v < max`, `write_uint v max` succeeds and reading the produced bits back
with `read_uint max` yields exactly `v`, consuming exactly the written bits. -/
theorem c8_write_uint_read_uint_roundtrip (max v : Nat) (rest : List Bool)
    (h2 : 2 ≤ max) (hmax : max ≤ 2 ^ 32) (hv : v < max) :
    ∃ w, write_uint v max = .ok w ∧ read_uint max (w ++ rest) = some (v, rest) := by
  refine ⟨write_uint_loop max v 33 0 1, ?_, ?_⟩
  · rw [write_uint, if_neg (by omega), if_neg (by omega)]
  · have h := uint_lockstep max v hmax hv rest 33 0 0 (by omega) (by omega)
    simpa [read_uint] using h

/-- Witness for C8 at `max = 5`, `v = 3`, one trailing bit. -/
theorem c8_witness :
    ∃ w, write_uint 3 5 = .ok w ∧ read_uint 5 (w ++ [true]) = some (3, [true]) :=
  c8_write_uint_read_uint_roundtrip 5 3 [true] (by norm_num) (by norm_num) (by norm_num)

/-- C10 counterexample: on the bytes `FE FF FF FF 41 00` (length prefix `-2`),
the byte-stream decoder succeeds with the string `"A"` having consumed all six
bytes, while the bit-stream decoder started on the same bytes fails: it treats
`-L` as a count of UTF-16 code units and attempts to read four bytes where
only two remain. The two decoders therefore do not behave identically. -/
theorem c10_counterexample :
    read_string [0xFE, 0xFF, 0xFF, 0xFF, 0x41, 0x00] = some (strLit "A", []) ∧
    bit_read_string (bytes_bits [0xFE, 0xFF, 0xFF, 0xFF, 0x41, 0x00]) = none := by
  refine ⟨by decide, by decide⟩

/-- C10 (amended): the byte-stream and bit-stream string decoders behave
identically (both fail, or both succeed with the same string and the same
bytes consumed) on every byte sequence whose leading little-endian `i32`
length prefix is non-negative; on a negative prefix `-L` the byte-stream
decoder consumes `L` bytes as `L / 2` code units (failing for odd `L`) while
the bit-stream decoder consumes `2 * L` bytes as `L` code units. -/
theorem c10_decoders_agree_on_nonnegative_prefix (bs : List Nat)
    (hb : ∀ b ∈ bs, b < 2 ^ 8)
    (hpre : ∀ v rest, read_i32 bs = some (v, rest) → 0 ≤ v) :
    bit_read_string (bytes_bits bs) =
      (read_string bs).map (fun p => (p.1, bytes_bits p.2)) := by
  rw [bit_read_string, read_string, bit_read_i32_bytes bs hb]
  cases hri : read_i32 bs with
  | none => simp
  | some p =>
    obtain ⟨v, rest⟩ := p
    have hv : 0 ≤ v := hpre v rest hri
    have hrest : ∀ x ∈ rest, x < 2 ^ 8 := by
      intro x hx
      exact hb x (List.drop_subset 4 bs ((read_i32_parts hri) ▸ hx))
    simp only [Option.map_some']
    rw [if_pos hv, if_pos hv]
    rw [read_bytes_bits_bytes _ rest hrest]
    cases hte : take_exact (v - 1).toNat rest with
    | none => simp
    | some q =>
      obtain ⟨chars, rest2⟩ := q
      have hr2 : ∀ x ∈ rest2, x < 2 ^ 8 := by
        intro x hx
        exact hrest x (List.drop_subset _ rest ((take_exact_eq hte).2.1 ▸ hx))
      simp only [Option.map_some']
      by_cases hvpos : 0 < v
      · rw [if_pos hvpos, if_pos hvpos, read_bytes_bits_bytes 1 rest2 hr2]
        cases hnull : take_exact 1 rest2 with
        | none => simp
        | some r =>
          obtain ⟨nb, rest3⟩ := r
          simp only [Option.map_some']
          cases hdec : utf8_decode chars with
          | none => simp
          | some s => simp
      · rw [if_neg hvpos, if_neg hvpos]
        cases hdec : utf8_decode chars with
        | none => simp
        | some s => simp

/-- Witness for the amended C10 theorem on the bytes `02 00 00 00 41 00`
(positive prefix, the one-character string `"A"`). -/
theorem c10_decoders_agree_witness :
    bit_read_string (bytes_bits [2, 0, 0, 0, 0x41, 0]) =
      (read_string [2, 0, 0, 0, 0x41, 0]).map (fun p => (p.1, bytes_bits p.2)) :=
  c10_decoders_agree_on_nonnegative_prefix [2, 0, 0, 0, 0x41, 0] (by decide)
    (fun v rest h => by
      rw [show read_i32 [2, 0, 0, 0, 0x41, 0] = some ((2 : Int), [0x41, 0]) from by decide] at h
      cases h
      norm_num)


lemma Node.nvalue_of_isBranch {T : Type} (n : Node T) (h : n.isBranch = true) :
    n.nvalue = Option.none := by
  cases n <;> simp_all [Node.isBranch, Node.nvalue]

lemma Node.nvalue_some_of_not_isBranch {T : Type} (n : Node T) (h : n.isBranch = false) :
    ∃ v, n.nvalue = some v := by
  cases n <;> simp_all [Node.isBranch, Node.nvalue]

/-! ## Claim theorems: the octree -/

/-- C6: the claim states `Point::chunk` is componentwise flooring division by
1024, in particular that a negative exact multiple of 1024 maps to that
multiple divided by 1024. The code's `div_floor` computes
`(a - 1024 - 1) / 1024` with truncating division for negative `a`, which is
off by one whenever `a % 1024 ∈ {0, 1023}`: chunk of `(-1024, 0, 0)` is
`(-2, 0, 0)` although `⌊-1024 / 1024⌋ = -1`. The helper's own name
(`div_floor`) documents the flooring intent, so the code is the slip. -/
theorem c6_chunk_is_not_flooring_division :
    Point.chunk ⟨-1024, 0, 0⟩ = ⟨-2, 0, 0⟩ ∧ Int.fdiv (-1024) CHUNK_SIZE = -1 := by
  refine ⟨by decide, by decide⟩

/-- C7 counterexample: an octree built by three insertions into a fresh node
on which `reduce()` leaves a subtree of eight identical-value leaves in
place: the scan exits at child 0 (which cannot collapse) and never reduces
the sibling that still holds a uniform octet. -/
theorem c7_counterexample :
    (reduce_example_tree.reduce).has_uniform_octet = true := by
  decide

/-- C7 (amended): after `Node::reduce()` returns, the node it was invoked on
is never itself a branch of eight leaves all carrying the same value — the
collapse is guaranteed at that node, while an early exit of the scan may
leave uniform octets in deeper, unvisited subtrees (see the counterexample). -/
theorem c7_reduce_node_never_uniform_octet {T : Type} [DecidableEq T] (t : Node T) :
    (t.reduce).top_uniform = false := by
  cases t with
  | leaf p d h v => simp [Node.reduce, Node.top_uniform]
  | branch p d h c0 c1 c2 c3 c4 c5 c6 c7 =>
    simp only [Node.reduce]
    generalize c0.reduce = r0
    generalize c1.reduce = r1
    generalize c2.reduce = r2
    generalize c3.reduce = r3
    generalize c4.reduce = r4
    generalize c5.reduce = r5
    generalize c6.reduce = r6
    generalize c7.reduce = r7
    by_cases hb0 : r0.isBranch = true
    · rw [if_pos hb0]
      have h0n := Node.nvalue_of_isBranch r0 hb0
      simp [Node.top_uniform, h0n]
    rw [if_neg hb0]
    by_cases hb1 : r1.isBranch = true
    · rw [if_pos hb1]
      have hin := Node.nvalue_of_isBranch r1 hb1
      obtain ⟨v0, hv0⟩ := Node.nvalue_some_of_not_isBranch r0 (by simpa using hb0)
      simp [Node.top_uniform, hin, hv0]
    rw [if_neg hb1]
    by_cases hv1 : r1.nvalue ≠ r0.nvalue
    · rw [if_pos hv1]
      simp [Node.top_uniform, hv1]
    rw [if_neg hv1]
    by_cases hb2 : r2.isBranch = true
    · rw [if_pos hb2]
      have hin := Node.nvalue_of_isBranch r2 hb2
      obtain ⟨v0, hv0⟩ := Node.nvalue_some_of_not_isBranch r0 (by simpa using hb0)
      simp [Node.top_uniform, hin, hv0]
    rw [if_neg hb2]
    by_cases hv2 : r2.nvalue ≠ r0.nvalue
    · rw [if_pos hv2]
      simp [Node.top_uniform, hv2]
    rw [if_neg hv2]
    by_cases hb3 : r3.isBranch = true
    · rw [if_pos hb3]
      have hin := Node.nvalue_of_isBranch r3 hb3
      obtain ⟨v0, hv0⟩ := Node.nvalue_some_of_not_isBranch r0 (by simpa using hb0)
      simp [Node.top_uniform, hin, hv0]
    rw [if_neg hb3]
    by_cases hv3 : r3.nvalue ≠ r0.nvalue
    · rw [if_pos hv3]
      simp [Node.top_uniform, hv3]
    rw [if_neg hv3]
    by_cases hb4 : r4.isBranch = true
    · rw [if_pos hb4]
      have hin := Node.nvalue_of_isBranch r4 hb4
      obtain ⟨v0, hv0⟩ := Node.nvalue_some_of_not_isBranch r0 (by simpa using hb0)
      simp [Node.top_uniform, hin, hv0]
    rw [if_neg hb4]
    by_cases hv4 : r4.nvalue ≠ r0.nvalue
    · rw [if_pos hv4]
      simp [Node.top_uniform, hv4]
    rw [if_neg hv4]
    by_cases hb5 : r5.isBranch = true
    · rw [if_pos hb5]
      have hin := Node.nvalue_of_isBranch r5 hb5
      obtain ⟨v0, hv0⟩ := Node.nvalue_some_of_not_isBranch r0 (by simpa using hb0)
      simp [Node.top_uniform, hin, hv0]
    rw [if_neg hb5]
    by_cases hv5 : r5.nvalue ≠ r0.nvalue
    · rw [if_pos hv5]
      simp [Node.top_uniform, hv5]
    rw [if_neg hv5]
    by_cases hb6 : r6.isBranch = true
    · rw [if_pos hb6]
      have hin := Node.nvalue_of_isBranch r6 hb6
      obtain ⟨v0, hv0⟩ := Node.nvalue_some_of_not_isBranch r0 (by simpa using hb0)
      simp [Node.top_uniform, hin, hv0]
    rw [if_neg hb6]
    by_cases hv6 : r6.nvalue ≠ r0.nvalue
    · rw [if_pos hv6]
      simp [Node.top_uniform, hv6]
    rw [if_neg hv6]
    by_cases hb7 : r7.isBranch = true
    · rw [if_pos hb7]
      have hin := Node.nvalue_of_isBranch r7 hb7
      obtain ⟨v0, hv0⟩ := Node.nvalue_some_of_not_isBranch r0 (by simpa using hb0)
      simp [Node.top_uniform, hin, hv0]
    rw [if_neg hb7]
    by_cases hv7 : r7.nvalue ≠ r0.nvalue
    · rw [if_pos hv7]
      simp [Node.top_uniform, hv7]
    rw [if_neg hv7]
    simp [Node.top_uniform]

/-- Witness for the amended C7 theorem at a concrete one-leaf tree. -/
theorem c7_reduce_witness :
    ((Node.new ⟨0, 0, 0⟩ 1 (some 5) : Node Nat).reduce).top_uniform = false :=
  c7_reduce_node_never_uniform_octet _

/-- C5: the claim states that after `SaveOctree::new`, every brick with
non-degenerate bounds is found by `bricks_in` over exactly those bounds. With
the injected axis size 1 on every axis, the single brick at `(2, 2, 2)` has
the non-degenerate bounds `((1,1,1), (3,3,3))`, yet `bricks_in` over those
bounds returns the empty list: `insert` records a value only on octree cells
lying fully inside the range, and no cell of the dyadic chunk decomposition
(all of even side length at points of odd coordinates) fits inside this
brick's 2-unit bounds. `bricks_in`'s own documentation ("Fetch all bricks
within some volume") states the claimed behaviour, so the code is the slip. -/
theorem c5_small_brick_missing_from_bricks_in :
    SaveOctree.brick_bounds unit_axis_size ⟨small_brick_save, ⟨[]⟩⟩ small_brick =
      ((1, 1, 1), (3, 3, 3)) ∧
    ((1, 1, 1) : Int × Int × Int) ≠ ((3, 3, 3) : Int × Int × Int) ∧
    (SaveOctree.new unit_axis_size small_brick_save).map
      (fun t => t.bricks_in (1, 1, 1) (3, 3, 3)) = some (some []) := by
  refine ⟨by decide, by decide, by decide⟩


/-! ## Claim theorems: reader and writer -/

/-- C1: the claim states that writing any save satisfying the §3 invariants
and reading the bytes back yields the save modulo five tolerated differences.
It fails on the code: for the invariant-satisfying save whose description is
`"日"`, the writer succeeds but emits the string prefix `-3` (the negated
UTF-8 byte length), which its own reader rejects as an InvalidData I/O error,
so `read_all` fails instead of returning the save. (The sections of this
write are uncompressed, so the injected zlib decompressor is never
consulted.) -/
theorem c1_roundtrip_fails_on_nonascii_description :
    index_invariants roundtrip_failing_save = true ∧
    wf_save roundtrip_failing_save = true ∧
    (SaveWriter.write roundtrip_failing_save).toOption.map (read_all_bytes no_inflate) =
      some (.error .ioError) := by
  refine ⟨by decide, by decide, by set_option maxRecDepth 8000 in decide⟩

/-- C4 counterexample: on a freshly constructed version-10 reader (so
header 1 has not been read or skipped), `skip_header2` does not return
`BadSectionReadOrder`: it succeeds, consumes the eight size bytes from the
source, and marks header 2 as read. -/
theorem c4_counterexample :
    SaveReader.new ([0x42, 0x52, 0x53] ++ u16_bytes 10 ++ i32_bytes 0 ++
        List.replicate 8 0) =
      .ok ⟨10, 0, false, false, false, List.replicate 8 0⟩ ∧
    SaveReader.skip_header2 ⟨10, 0, false, false, false, List.replicate 8 0⟩ =
      (.ok (), ⟨10, 0, false, true, false, []⟩) := by
  refine ⟨by decide, by decide⟩

/-- C4 (amended): the order guards the reader actually has. `read_header2`
rejects with `BadSectionReadOrder`, consuming no input, unless header 1 has
been read or skipped; `read_preview` and `skip_preview` do so unless header 2
has been; `read_bricks` does so unless both header 2 and the preview have
been. `read_header1`, `skip_header1` and `skip_header2` perform no order
check (the first two have no preceding section; the missing guard of
`skip_header2` is the counterexample). -/
theorem c4_section_order_guards (inflate : List Nat → Nat → Option (List Nat))
    (st : RState) :
    (st.header1_read = false →
      SaveReader.read_header2 inflate st = (.error .badSectionReadOrder, st)) ∧
    (st.header2_read = false →
      SaveReader.read_preview st = (.error .badSectionReadOrder, st)) ∧
    (st.header2_read = false →
      SaveReader.skip_preview st = (.error .badSectionReadOrder, st)) ∧
    (∀ header1 header2, st.preview_read = false ∨ st.header2_read = false →
      SaveReader.read_bricks inflate header1 header2 st =
        (.error .badSectionReadOrder, st)) := by
  refine ⟨?_, ?_, ?_, ?_⟩
  · intro h
    simp [SaveReader.read_header2, h]
  · intro h
    simp [SaveReader.read_preview, h]
  · intro h
    simp [SaveReader.skip_preview, h]
  · intro header1 header2 h
    rw [SaveReader.read_bricks, if_pos]
    rcases h with h | h <;> simp [h]

/-- Witness for the amended C4 theorem: a fresh version-10 reader state with
nothing consumed rejects `read_header2`. -/
theorem c4_section_order_witness :
    SaveReader.read_header2 no_inflate ⟨10, 0, false, false, false, []⟩ =
      (.error .badSectionReadOrder, ⟨10, 0, false, false, false, []⟩) :=
  (c4_section_order_guards no_inflate ⟨10, 0, false, false, false, []⟩).1 rfl

lemma alist_take_none_iff {α : Type} (k : Str) (l : List (Str × α)) :
    alist_take k l = Option.none ↔ alist_get k l = Option.none := by
  induction l with
  | nil => simp [alist_take, alist_get]
  | cons p rest ih =>
    obtain ⟨k2, v⟩ := p
    by_cases hk : k2 = k
    · simp [alist_take, alist_get, hk]
    · simp only [alist_take, alist_get, if_neg hk]
      cases ht : alist_take k rest with
      | none => simp [ht, ih.mp ht]
      | some q =>
        simp [ht]
        intro hg
        rw [← ih] at hg
        rw [hg] at ht
        cases ht

lemma alist_take_some {α : Type} {k : Str} {l : List (Str × α)} {v : α}
    {rest : List (Str × α)} (h : alist_take k l = some (v, rest)) :
    alist_get k l = some v ∧ ∀ q, q ≠ k → alist_get q rest = alist_get q l := by
  induction l generalizing v rest with
  | nil => cases h
  | cons p tail ih =>
    obtain ⟨k2, w⟩ := p
    by_cases hk : k2 = k
    · rw [alist_take, if_pos hk] at h
      cases h
      subst hk
      refine ⟨by rw [alist_get, if_pos rfl], fun q hq => ?_⟩
      rw [alist_get, if_neg (fun hh => hq hh.symm)]
    · rw [alist_take, if_neg hk] at h
      cases ht : alist_take k tail with
      | none => rw [ht] at h; cases h
      | some q2 =>
        obtain ⟨v2, rest2⟩ := q2
        rw [ht] at h
        simp only [Option.map_some'] at h
        cases h
        obtain ⟨ih1, ih2⟩ := ih ht
        refine ⟨by rw [alist_get, if_neg hk]; exact ih1, fun q hq => ?_⟩
        by_cases hq2 : k2 = q
        · rw [alist_get, if_pos hq2, alist_get, if_pos hq2]
        · rw [alist_get, if_neg hq2, alist_get, if_neg hq2]
          exact ih2 q hq


lemma write_uint_ok {v max : Nat} (h2 : 2 ≤ max) (hv : v < max) :
    write_uint v max = .ok (write_uint_loop max v 33 0 1) := by
  rw [write_uint, if_neg (by omega), if_neg (by omega)]

lemma orientation_lt (d : Direction) (r : Rotation) : (d.toNat <<< 2) ||| r.toNat < 24 := by
  cases d <;> cases r <;> decide

lemma foldlM_indep {α β γ : Type} (g : α → Except WErr β) (m : γ → β → γ) :
    ∀ (xs : List α) (acc : γ),
      ((∃ out, xs.foldlM (fun a x => (g x).map (m a)) acc = .ok out) ↔
        ∀ x ∈ xs, ∃ y, g x = .ok y) ∧
      (∀ e, xs.foldlM (fun a x => (g x).map (m a)) acc = .error e →
        ∃ x ∈ xs, g x = .error e) := by
  intro xs
  induction xs with
  | nil =>
    intro acc
    refine ⟨⟨fun _ => by simp, fun _ => ⟨acc, rfl⟩⟩, fun e he => by cases he⟩
  | cons x xs ih =>
    intro acc
    cases hg : g x with
    | error e0 =>
      have key : List.foldlM (fun a x => (g x).map (m a)) acc (x :: xs) =
          Except.error e0 := by
        rw [List.foldlM_cons, hg]
        rfl
      refine ⟨⟨fun h => ?_, fun hall => ?_⟩, fun e he => ?_⟩
      · obtain ⟨out, hout⟩ := h
        rw [key] at hout
        cases hout
      · obtain ⟨y, hy⟩ := hall x (by simp)
        rw [hg] at hy
        cases hy
      · rw [key] at he
        cases he
        exact ⟨x, by simp, hg⟩
    | ok y0 =>
      have key : List.foldlM (fun a x => (g x).map (m a)) acc (x :: xs) =
          List.foldlM (fun a x => (g x).map (m a)) (m acc y0) xs := by
        rw [List.foldlM_cons, hg]
        rfl
      refine ⟨⟨fun h => ?_, fun hall => ?_⟩, fun e he => ?_⟩
      · obtain ⟨out, hout⟩ := h
        rw [key] at hout
        intro z hz
        rcases List.mem_cons.mp hz with rfl | hz2
        · exact ⟨y0, hg⟩
        · exact ((ih (m acc y0)).1.mp ⟨out, hout⟩) z hz2
      · obtain ⟨out, hout⟩ := (ih (m acc y0)).1.mpr (fun z hz => hall z (by simp [hz]))
        exact ⟨out, by rw [key]; exact hout⟩
      · rw [key] at he
        obtain ⟨z, hz, hze⟩ := (ih (m acc y0)).2 e he
        exact ⟨z, by simp [hz], hze⟩


lemma write_entry_props_error_cbe :
    ∀ (properties : List (Str × Str)) (props : List (Str × UnrealType)) (e : WErr),
      write_entry_props properties props = .error e → e = .componentBrickError := by
  intro properties
  induction properties with
  | nil =>
    intro props e he
    cases he
  | cons pr rest ih =>
    intro props e he
    rw [write_entry_props] at he
    cases ht : alist_take pr.1 props with
    | none =>
      rw [ht] at he
      cases he
      rfl
    | some q =>
      obtain ⟨v, props2⟩ := q
      rw [ht] at he
      dsimp only at he
      cases hrec : write_entry_props rest props2 with
      | error e2 =>
        rw [hrec] at he
        cases he
        exact ih props2 e hrec
      | ok bits =>
        rw [hrec] at he
        cases he

lemma write_entry_props_ok_iff :
    ∀ (properties : List (Str × Str)) (props : List (Str × UnrealType)),
      (properties.map Prod.fst).Nodup →
      ((∃ bits, write_entry_props properties props = .ok bits) ↔
        ∀ q ∈ properties, (alist_get q.1 props).isSome = true) := by
  intro properties
  induction properties with
  | nil =>
    intro props hnd
    simp [write_entry_props]
  | cons pr rest ih =>
    intro props hnd
    have hnc : pr.1 ∉ rest.map Prod.fst ∧ (rest.map Prod.fst).Nodup := by
      rw [show List.map Prod.fst (pr :: rest) = pr.1 :: rest.map Prod.fst from rfl,
        List.nodup_cons] at hnd
      exact hnd
    have hnd2 := hnc.2
    have hpr := hnc.1
    rw [write_entry_props]
    cases ht : alist_take pr.1 props with
    | none =>
      have hget : alist_get pr.1 props = Option.none := (alist_take_none_iff _ _).mp ht
      constructor
      · rintro ⟨bits, hb⟩
        cases hb
      · intro hall
        have := hall pr (by simp)
        rw [hget] at this
        cases this
    | some q =>
      obtain ⟨v, props2⟩ := q
      obtain ⟨hget, hother⟩ := alist_take_some ht
      constructor
      · rintro ⟨bits, hb⟩
        dsimp only at hb
        cases hrec : write_entry_props rest props2 with
        | error e2 => rw [hrec] at hb; cases hb
        | ok bits2 =>
          intro z hz
          rcases List.mem_cons.mp hz with rfl | hz2
          · rw [hget]; rfl
          · have hzne : z.1 ≠ pr.1 := by
              intro hcontra
              exact hpr (hcontra ▸ List.mem_map_of_mem Prod.fst hz2)
            have := (ih props2 hnd2).mp ⟨bits2, hrec⟩ z hz2
            rw [hother z.1 hzne] at this
            exact this
      · intro hall
        have hrest : ∀ z ∈ rest, (alist_get z.1 props2).isSome = true := by
          intro z hz2
          have hzne : z.1 ≠ pr.1 := by
            intro hcontra
            exact hpr (hcontra ▸ List.mem_map_of_mem Prod.fst hz2)
          rw [hother z.1 hzne]
          exact hall z (by simp [hz2])
        obtain ⟨bits2, hb2⟩ := (ih props2 hnd2).mpr hrest
        refine ⟨write_unreal v ++ bits2, ?_⟩
        dsimp only
        rw [hb2]
        rfl

lemma alist_get_push_self (key : Str) (e : CBEntry)
    (l : List (Str × List CBEntry)) :
    alist_get key (push_component_entry key e l) =
      some ((alist_get key l).getD [] ++ [e]) := by
  induction l with
  | nil => simp [push_component_entry, alist_get]
  | cons p rest ih =>
    obtain ⟨k, lst⟩ := p
    by_cases hk : k = key
    · subst hk
      simp [push_component_entry, alist_get]
    · rw [push_component_entry, if_neg hk, alist_get, if_neg hk, alist_get,
        if_neg hk, ih]

lemma alist_get_push_ne (key k2 : Str) (e : CBEntry)
    (l : List (Str × List CBEntry)) (h : key ≠ k2) :
    alist_get k2 (push_component_entry key e l) = alist_get k2 l := by
  induction l with
  | nil => simp [push_component_entry, alist_get, h]
  | cons p rest ih =>
    obtain ⟨k, lst⟩ := p
    by_cases hk : k = key
    · subst hk
      rw [push_component_entry, if_pos rfl, alist_get, if_neg h, alist_get, if_neg h]
    · rw [push_component_entry, if_neg hk, alist_get, alist_get]
      by_cases hk2 : k = k2
      · rw [if_pos hk2, if_pos hk2]
      · rw [if_neg hk2, if_neg hk2, ih]

lemma collect_as_push (bricks : List Brick) :
    collect_component_bricks bricks =
      bricks.enum.foldl (fun acc pr => push_brick_components pr.1 pr.2.components acc) [] := rfl

lemma push_sound {P : Str → CBEntry → Prop} {acc : List (Str × List CBEntry)}
    (hacc : ∀ name l, alist_get name acc = some l → ∀ e ∈ l, P name e)
    {key : Str} {e : CBEntry} (he : P key e) :
    ∀ name l, alist_get name (push_component_entry key e acc) = some l →
      ∀ e2 ∈ l, P name e2 := by
  intro name l hget e2 he2
  by_cases hk : key = name
  · subst hk
    rw [alist_get_push_self] at hget
    cases hget
    rcases List.mem_append.mp he2 with hl | hr
    · cases hob : alist_get key acc with
      | none => rw [hob] at hl; cases hl
      | some l0 =>
        rw [hob] at hl
        exact hacc key l0 hob e2 hl
    · rcases List.mem_singleton.mp hr with rfl
      exact he
  · rw [alist_get_push_ne key name e acc hk] at hget
    exact hacc name l hget e2 he2

lemma push_brick_components_sound {P : Str → CBEntry → Prop} {i : Nat} :
    ∀ (kvs : List (Str × List (Str × UnrealType))) (acc : List (Str × List CBEntry)),
      (∀ kv ∈ kvs, P kv.1 (i, kv.2)) →
      (∀ name l, alist_get name acc = some l → ∀ e ∈ l, P name e) →
      ∀ name l, alist_get name (push_brick_components i kvs acc) = some l →
        ∀ e ∈ l, P name e := by
  intro kvs
  induction kvs with
  | nil =>
    intro acc _ hacc
    exact hacc
  | cons kv rest ih =>
    intro acc hkvs hacc
    exact ih (push_component_entry kv.1 (i, kv.2) acc)
      (fun z hz => hkvs z (by simp [hz]))
      (push_sound hacc (hkvs kv (by simp)))

lemma collect_sound {P : Str → CBEntry → Prop} :
    ∀ (pairs : List (Nat × Brick)) (acc : List (Str × List CBEntry)),
      (∀ pr ∈ pairs, ∀ kv ∈ pr.2.components, P kv.1 (pr.1, kv.2)) →
      (∀ name l, alist_get name acc = some l → ∀ e ∈ l, P name e) →
      ∀ name l,
        alist_get name
          (pairs.foldl (fun acc pr => push_brick_components pr.1 pr.2.components acc) acc)
            = some l →
        ∀ e ∈ l, P name e := by
  intro pairs
  induction pairs with
  | nil =>
    intro acc _ hacc
    exact hacc
  | cons pr rest ih =>
    intro acc hprs hacc
    exact ih (push_brick_components pr.1 pr.2.components acc)
      (fun z hz => hprs z (by simp [hz]))
      (push_brick_components_sound pr.2.components acc
        (fun kv hkv => hprs pr (by simp) kv hkv) hacc)


lemma mem_get_push (key name : Str) (e e2 : CBEntry) (l : List (Str × List CBEntry))
    (h : e2 ∈ (alist_get name l).getD []) :
    e2 ∈ (alist_get name (push_component_entry key e l)).getD [] := by
  by_cases hk : key = name
  · subst hk
    rw [alist_get_push_self, Option.getD_some]
    exact List.mem_append_left _ (by
      cases hg : alist_get key l with
      | none => rw [hg] at h; cases h
      | some l0 => rw [hg] at h; exact h)
  · rw [alist_get_push_ne key name e l hk]
    exact h

lemma mem_get_push_self (key : Str) (e : CBEntry) (l : List (Str × List CBEntry)) :
    e ∈ (alist_get key (push_component_entry key e l)).getD [] := by
  rw [alist_get_push_self, Option.getD_some]
  exact List.mem_append_right _ (by simp)

lemma mem_get_push_brick (i : Nat) :
    ∀ (kvs : List (Str × List (Str × UnrealType))) (acc : List (Str × List CBEntry))
      (name : Str) (e2 : CBEntry),
      e2 ∈ (alist_get name acc).getD [] →
      e2 ∈ (alist_get name (push_brick_components i kvs acc)).getD [] := by
  intro kvs
  induction kvs with
  | nil =>
    intro acc name e2 h
    exact h
  | cons kv rest ih =>
    intro acc name e2 h
    exact ih _ name e2 (mem_get_push kv.1 name (i, kv.2) e2 acc h)

lemma mem_get_push_brick_self (i : Nat) :
    ∀ (kvs : List (Str × List (Str × UnrealType))) (acc : List (Str × List CBEntry))
      (kv : Str × List (Str × UnrealType)), kv ∈ kvs →
      (i, kv.2) ∈ (alist_get kv.1 (push_brick_components i kvs acc)).getD [] := by
  intro kvs
  induction kvs with
  | nil =>
    intro acc kv h
    cases h
  | cons kv0 rest ih =>
    intro acc kv h
    rcases List.mem_cons.mp h with rfl | h2
    · exact mem_get_push_brick i rest _ kv.1 (i, kv.2) (mem_get_push_self kv.1 (i, kv.2) acc)
    · exact ih _ kv h2

lemma mem_get_collect_fold :
    ∀ (pairs : List (Nat × Brick)) (acc : List (Str × List CBEntry))
      (name : Str) (e2 : CBEntry),
      e2 ∈ (alist_get name acc).getD [] →
      e2 ∈ (alist_get name
        (pairs.foldl (fun acc pr => push_brick_components pr.1 pr.2.components acc) acc)).getD [] := by
  intro pairs
  induction pairs with
  | nil =>
    intro acc name e2 h
    exact h
  | cons pr rest ih =>
    intro acc name e2 h
    exact ih _ name e2 (mem_get_push_brick pr.1 pr.2.components acc name e2 h)

lemma collect_complete_fold :
    ∀ (pairs : List (Nat × Brick)) (acc : List (Str × List CBEntry))
      (pr : Nat × Brick) (kv : Str × List (Str × UnrealType)),
      pr ∈ pairs → kv ∈ pr.2.components →
      (pr.1, kv.2) ∈ (alist_get kv.1
        (pairs.foldl (fun acc pr => push_brick_components pr.1 pr.2.components acc) acc)).getD [] := by
  intro pairs
  induction pairs with
  | nil =>
    intro acc pr kv h
    cases h
  | cons pr0 rest ih =>
    intro acc pr kv h hkv
    rcases List.mem_cons.mp h with rfl | h2
    · exact mem_get_collect_fold rest _ kv.1 (pr.1, kv.2)
        (mem_get_push_brick_self pr.1 pr.2.components acc kv hkv)
    · exact ih _ pr kv h2 hkv

lemma collect_complete (bricks : List Brick) (i : Nat) (b : Brick)
    (kv : Str × List (Str × UnrealType))
    (hib : (i, b) ∈ bricks.enum) (hkv : kv ∈ b.components) :
    (i, kv.2) ∈ (alist_get kv.1 (collect_component_bricks bricks)).getD [] := by
  rw [collect_as_push]
  exact collect_complete_fold bricks.enum [] (i, b) kv hib hkv

lemma alist_get_of_mem {α : Type} :
    ∀ {l : List (Str × α)} {kv : Str × α}, kv ∈ l → ((l.map Prod.fst).Nodup) →
      alist_get kv.1 l = some kv.2 := by
  intro l
  induction l with
  | nil =>
    intro kv h
    cases h
  | cons p rest ih =>
    intro kv h hnd
    have hnc : p.1 ∉ rest.map Prod.fst ∧ (rest.map Prod.fst).Nodup := by
      rw [show List.map Prod.fst (p :: rest) = p.1 :: rest.map Prod.fst from rfl,
        List.nodup_cons] at hnd
      exact hnd
    rcases List.mem_cons.mp h with rfl | h2
    · rw [alist_get, if_pos rfl]
    · have hne : p.1 ≠ kv.1 := by
        intro hcontra
        exact hnc.1 (hcontra ▸ List.mem_map_of_mem Prod.fst h2)
      rw [alist_get, if_neg hne]
      exact ih h2 hnc.2

lemma alist_mem_of_get {α : Type} :
    ∀ {l : List (Str × α)} {k : Str} {v : α}, alist_get k l = some v → (k, v) ∈ l := by
  intro l
  induction l with
  | nil =>
    intro k v h
    cases h
  | cons p rest ih =>
    intro k v h
    by_cases hk : p.1 = k
    · obtain ⟨k2, v2⟩ := p
      rw [alist_get, if_pos hk] at h
      cases h
      cases hk
      exact List.mem_cons_self _ _
    · obtain ⟨k2, v2⟩ := p
      rw [alist_get, if_neg hk] at h
      exact List.mem_cons_of_mem _ (ih h)


lemma write_component_eq (bc : Nat) (cb : List (Str × List CBEntry))
    (name : Str) (comp : Component) :
    write_component bc cb name comp =
      match alist_get name cb with
      | Option.none => Except.ok (write_string name ++
          bits_to_bytes (pad_to_byte (bit_write_i32 comp.version ++ bit_write_i32 0 ++
            (bit_write_i32 (comp.properties.length : Int) ++
             comp.properties.flatMap (fun pr => bit_write_string pr.1 ++ bit_write_string pr.2)) ++
            [])))
      | some brick_list =>
        match brick_list.foldlM
            (fun acc entry => (write_uint entry.1 (Nat.max bc 2)).map (acc ++ ·)) [] with
        | Except.error e => Except.error e
        | Except.ok idx =>
          match brick_list.foldlM
              (fun acc entry => (write_entry_props comp.properties entry.2).map (acc ++ ·)) [] with
          | Except.error e => Except.error e
          | Except.ok valueBits =>
            Except.ok (write_string name ++
              bits_to_bytes (pad_to_byte (bit_write_i32 comp.version ++
                (bit_write_i32 (brick_list.length : Int) ++ idx) ++
                (bit_write_i32 (comp.properties.length : Int) ++
                 comp.properties.flatMap (fun pr => bit_write_string pr.1 ++ bit_write_string pr.2)) ++
                valueBits))) := by
  cases halist : alist_get name cb with
  | none =>
    rw [write_component, halist]
    rfl
  | some brick_list =>
    rw [write_component, halist]
    dsimp only
    cases hf1 : brick_list.foldlM
        (fun acc entry => (write_uint entry.1 (Nat.max bc 2)).map (acc ++ ·)) [] with
    | error e => rfl
    | ok idx =>
      cases hf2 : brick_list.foldlM
          (fun acc entry => (write_entry_props comp.properties entry.2).map (acc ++ ·)) [] with
      | error e => rfl
      | ok valueBits => rfl


lemma write_uint_error {v max : Nat} {e : WErr} (h2 : 2 ≤ max)
    (he : write_uint v max = .error e) : e = .ioError := by
  rw [write_uint, if_neg (by omega)] at he
  by_cases hv : max ≤ v
  · rw [if_pos hv] at he
    cases he
    rfl
  · rw [if_neg hv] at he
    cases he

lemma write_component_spec (bc : Nat) (cb : List (Str × List CBEntry))
    (name : Str) (comp : Component)
    (hidx : ∀ entry ∈ (alist_get name cb).getD ([] : List CBEntry), entry.1 < Nat.max bc 2)
    (hnd : (comp.properties.map Prod.fst).Nodup) :
    (∀ e, write_component bc cb name comp = .error e → e = .componentBrickError) ∧
    (write_component bc cb name comp = .error .componentBrickError ↔
      ∃ entry ∈ (alist_get name cb).getD ([] : List CBEntry),
        ∃ q ∈ comp.properties, alist_get q.1 entry.2 = Option.none) := by
  rw [write_component_eq]
  cases halist : alist_get name cb with
  | none =>
    constructor
    · intro e he
      cases he
    · constructor
      · intro he
        cases he
      · rintro ⟨entry, hentry, -⟩
        cases hentry
  | some brick_list =>
    rw [halist] at hidx
    rw [Option.getD_some] at hidx
    simp only [Option.getD_some]
    cases hf1 : brick_list.foldlM
        (fun acc entry => (write_uint entry.1 (Nat.max bc 2)).map (acc ++ ·))
        ([] : List Bool) with
    | error e =>
      obtain ⟨entry, hmem, hent⟩ := (foldlM_indep
        (fun entry : CBEntry => write_uint entry.1 (Nat.max bc 2))
        (fun acc : List Bool => (acc ++ ·)) brick_list []).2 e hf1
      rw [write_uint_ok (Nat.le_max_right bc 2) (hidx entry hmem)] at hent
      cases hent
    | ok idxOut =>
      cases hf2 : brick_list.foldlM
          (fun acc entry => (write_entry_props comp.properties entry.2).map (acc ++ ·))
          ([] : List Bool) with
      | error e =>
        obtain ⟨entry, hmem, hent⟩ := (foldlM_indep
          (fun entry : CBEntry => write_entry_props comp.properties entry.2)
          (fun acc : List Bool => (acc ++ ·)) brick_list []).2 e hf2
        have hcbe : e = WErr.componentBrickError :=
          write_entry_props_error_cbe comp.properties entry.2 e hent
        subst hcbe
        refine ⟨fun e2 he2 => by cases he2; rfl, ⟨fun _ => ?_, fun _ => rfl⟩⟩
        refine ⟨entry, hmem, ?_⟩

        by_contra hno
        push_neg at hno
        have hall : ∀ q ∈ comp.properties, (alist_get q.1 entry.2).isSome = true := by
          intro q hq
          cases hget : alist_get q.1 entry.2 with
          | none => exact absurd hget (hno q hq)
          | some v => rfl
        obtain ⟨bits, hbits⟩ :=
          (write_entry_props_ok_iff comp.properties entry.2 hnd).mpr hall
        rw [hbits] at hent
        cases hent
      | ok valOut =>
        constructor
        · intro e he
          cases he
        · constructor
          · intro he
            cases he
          · intro hx
            obtain ⟨entry, hmem, q, hq, hnone⟩ := hx
            have hok : ∀ x ∈ brick_list, ∃ y,
                write_entry_props comp.properties x.2 = Except.ok y :=
              (foldlM_indep (fun entry : CBEntry => write_entry_props comp.properties entry.2)
                (fun acc : List Bool => (acc ++ ·)) brick_list []).1.mp ⟨valOut, hf2⟩
            have hall := (write_entry_props_ok_iff comp.properties entry.2 hnd).mp
              (hok entry hmem) q hq
            rw [hnone] at hall
            cases hall


lemma write_brick_bits_ok (ac mc pc cc : Nat) (b : Brick)
    (h2ac : 2 ≤ ac) (h1 : b.asset_name_index < ac)
    (h2mc : 2 ≤ mc) (h3 : b.material_index < mc)
    (h2pc : 2 ≤ pc) (h5 : b.physical_index < pc)
    (h2cc : 2 ≤ cc)
    (h7 : match b.color with | .index i => i < cc | .unique _ => True)
    (h9 : b.material_intensity < 11) :
    ∃ out, write_brick_bits ac mc pc cc b = Except.ok out := by
  rw [write_brick_bits, write_uint_ok h2ac h1]
  dsimp only
  rw [write_uint_ok (show 2 ≤ 24 by norm_num) (orientation_lt b.direction b.rotation),
    write_uint_ok h2mc h3, write_uint_ok h2pc h5,
    write_uint_ok (show 2 ≤ 11 by norm_num) h9]
  cases hc : b.color with
  | index ind =>
    rw [hc] at h7
    dsimp only at h7 ⊢
    rw [write_uint_ok h2cc h7]
    exact ⟨_, rfl⟩
  | unique c =>
    exact ⟨_, rfl⟩

lemma write_brick_bits_error (ac mc pc cc : Nat) (b : Brick) (e : WErr)
    (h2ac : 2 ≤ ac) (h2mc : 2 ≤ mc) (h2pc : 2 ≤ pc) (h2cc : 2 ≤ cc)
    (he : write_brick_bits ac mc pc cc b = Except.error e) : e = WErr.ioError := by
  rw [write_brick_bits] at he
  dsimp only at he
  cases hu1 : write_uint b.asset_name_index ac with
  | error e1 =>
    rw [hu1] at he
    injection he with h
    exact h ▸ write_uint_error h2ac hu1
  | ok u1 =>
    rw [hu1] at he
    cases hu2 : write_uint ((b.direction.toNat <<< 2) ||| b.rotation.toNat) 24 with
    | error e2 =>
      rw [hu2] at he
      injection he with h
      exact h ▸ write_uint_error (show 2 ≤ 24 by norm_num) hu2
    | ok u2 =>
      rw [hu2] at he
      cases hu3 : write_uint b.material_index mc with
      | error e3 =>
        rw [hu3] at he
        injection he with h
        exact h ▸ write_uint_error h2mc hu3
      | ok u3 =>
        rw [hu3] at he
        cases hu4 : write_uint b.physical_index pc with
        | error e4 =>
          rw [hu4] at he
          injection he with h
          exact h ▸ write_uint_error h2pc hu4
        | ok u4 =>
          rw [hu4] at he
          cases hu5 : write_uint b.material_intensity 11 with
          | error e5 =>
            rw [hu5] at he
            injection he with h
            exact h ▸ write_uint_error (show 2 ≤ 11 by norm_num) hu5
          | ok u5 =>
            rw [hu5] at he
            cases hc : b.color with
            | index ind =>
              rw [hc] at he
              dsimp only at he
              cases hu6 : write_uint ind cc with
              | error e6 =>
                rw [hu6] at he
                injection he with h
                exact h ▸ write_uint_error h2cc hu6
              | ok u6 =>
                rw [hu6] at he
                injection he
            | unique c =>
              rw [hc] at he
              injection he


lemma index_invariants_spec {s : SaveData} (hinv : index_invariants s = true) :
    ∀ b ∈ s.bricks,
      b.asset_name_index < s.header2.brick_assets.length ∧
      (match b.color with
       | BrickColor.index i => i < s.header2.colors.length
       | BrickColor.unique _ => True) ∧
      b.material_index < s.header2.materials.length ∧
      b.physical_index < s.header2.physical_materials.length ∧
      b.material_intensity < 11 := by
  rw [index_invariants, List.all_eq_true] at hinv
  intro b hb
  have h := hinv b hb
  simp only [Bool.and_eq_true, decide_eq_true_eq] at h
  obtain ⟨⟨⟨⟨h1, h2⟩, h3⟩, h4⟩, h5⟩ := h
  refine ⟨h1, ?_, h3, h4, h5⟩
  cases hc : b.color with
  | index ind =>
    rw [hc] at h2
    simp only [decide_eq_true_eq] at h2
    exact h2
  | unique c => trivial

lemma write_bricks_section_ok (s : SaveData) (hinv : index_invariants s = true) :
    ∃ out, write_bricks_section s = Except.ok out := by
  have hbr : ∀ b ∈ s.bricks, ∃ y,
      write_brick_bits (Nat.max s.header2.brick_assets.length 2)
        (Nat.max s.header2.materials.length 2)
        (Nat.max s.header2.physical_materials.length 2)
        (Nat.max s.header2.colors.length 2) b = Except.ok y := by
    intro b hb
    obtain ⟨h1, h2, h3, h4, h5⟩ := index_invariants_spec hinv b hb
    refine write_brick_bits_ok _ _ _ _ b (Nat.le_max_right _ 2)
      (lt_of_lt_of_le h1 (Nat.le_max_left _ 2)) (Nat.le_max_right _ 2)
      (lt_of_lt_of_le h3 (Nat.le_max_left _ 2)) (Nat.le_max_right _ 2)
      (lt_of_lt_of_le h4 (Nat.le_max_left _ 2)) (Nat.le_max_right _ 2) ?_ h5
    cases hc : b.color with
    | index ind =>
      rw [hc] at h2
      exact lt_of_lt_of_le h2 (Nat.le_max_left _ 2)
    | unique c => trivial
  obtain ⟨bits, hfold⟩ := (foldlM_indep
    (fun b : Brick => write_brick_bits (Nat.max s.header2.brick_assets.length 2)
      (Nat.max s.header2.materials.length 2)
      (Nat.max s.header2.physical_materials.length 2)
      (Nat.max s.header2.colors.length 2) b)
    (fun bits : List Bool => fun y => pad_to_byte bits ++ y) s.bricks []).1.mpr hbr
  refine ⟨bits_to_bytes (pad_to_byte bits), ?_⟩
  rw [write_bricks_section]
  rw [hfold]
  rfl

lemma write_bricks_section_error (s : SaveData) (e : WErr)
    (he : write_bricks_section s = Except.error e) : e = WErr.ioError := by
  rw [write_bricks_section] at he
  cases hfold : s.bricks.foldlM
      (fun bits brick => (write_brick_bits (Nat.max s.header2.brick_assets.length 2)
        (Nat.max s.header2.materials.length 2)
        (Nat.max s.header2.physical_materials.length 2)
        (Nat.max s.header2.colors.length 2) brick).map (fun b => pad_to_byte bits ++ b))
      ([] : List Bool) with
  | ok bits =>
    rw [hfold] at he
    injection he
  | error e2 =>
    rw [hfold] at he
    injection he with h
    obtain ⟨brick, hmem, hb⟩ := (foldlM_indep
      (fun b : Brick => write_brick_bits (Nat.max s.header2.brick_assets.length 2)
        (Nat.max s.header2.materials.length 2)
        (Nat.max s.header2.physical_materials.length 2)
        (Nat.max s.header2.colors.length 2) b)
      (fun bits : List Bool => fun y => pad_to_byte bits ++ y) s.bricks []).2 e2 hfold
    exact h ▸ write_brick_bits_error _ _ _ _ brick e2 (Nat.le_max_right _ 2)
      (Nat.le_max_right _ 2) (Nat.le_max_right _ 2) (Nat.le_max_right _ 2) hb


lemma wf_save_spec {s : SaveData} (hwf : wf_save s = true) :
    (s.components.map Prod.fst).Nodup ∧
    (∀ pr ∈ s.components, (pr.2.properties.map Prod.fst).Nodup) ∧
    (∀ b ∈ s.bricks, (b.components.map Prod.fst).Nodup) := by
  rw [wf_save] at hwf
  simp only [Bool.and_eq_true, List.all_eq_true, decide_eq_true_eq] at hwf
  exact ⟨hwf.1.1, hwf.1.2, fun b hb => (hwf.2 b hb).1⟩

lemma collect_entry_spec (s : SaveData) (hwf : wf_save s = true) :
    ∀ (name : Str) (entry : CBEntry),
      entry ∈ (alist_get name (collect_component_bricks s.bricks)).getD ([] : List CBEntry) →
      entry.1 < s.bricks.length ∧
      ∃ b ∈ s.bricks, alist_get name b.components = some entry.2 := by
  intro name entry hentry
  cases hget : alist_get name (collect_component_bricks s.bricks) with
  | none =>
    rw [hget] at hentry
    cases hentry
  | some l =>
    rw [hget, Option.getD_some] at hentry
    rw [collect_as_push] at hget
    have helem : ∀ pr ∈ s.bricks.enum, ∀ kv ∈ pr.2.components,
        (fun (name : Str) (entry : CBEntry) => entry.1 < s.bricks.length ∧
          ∃ b ∈ s.bricks, alist_get name b.components = some entry.2) kv.1 (pr.1, kv.2) := by
      intro pr hpr kv hkv
      have hge := List.mem_enum_iff_getElem?.mp hpr
      have hlt : pr.1 < s.bricks.length := (List.getElem?_eq_some.mp hge).1
      have hmem : pr.2 ∈ s.bricks := List.mem_iff_getElem?.mpr ⟨pr.1, hge⟩
      have hnd := (wf_save_spec hwf).2.2 pr.2 hmem
      exact ⟨hlt, pr.2, hmem, alist_get_of_mem hkv hnd⟩
    have hbase : ∀ (name2 : Str) (l2 : List CBEntry),
        alist_get name2 ([] : List (Str × List CBEntry)) = some l2 →
        ∀ e ∈ l2, (fun (name : Str) (entry : CBEntry) => entry.1 < s.bricks.length ∧
          ∃ b ∈ s.bricks, alist_get name b.components = some entry.2) name2 e := by
      intro name2 l2 hget2
      cases hget2
    exact @collect_sound (fun (name : Str) (entry : CBEntry) => entry.1 < s.bricks.length ∧
        ∃ b ∈ s.bricks, alist_get name b.components = some entry.2)
      s.bricks.enum [] helem hbase name l hget entry hentry


lemma write_component_error_io_or_cbe (bc : Nat) (cb : List (Str × List CBEntry))
    (name : Str) (comp : Component) (e : WErr)
    (he : write_component bc cb name comp = Except.error e) :
    e = WErr.ioError ∨ e = WErr.componentBrickError := by
  rw [write_component_eq] at he
  cases halist : alist_get name cb with
  | none =>
    rw [halist] at he
    injection he
  | some brick_list =>
    rw [halist] at he
    dsimp only at he
    cases hf1 : brick_list.foldlM
        (fun acc entry => (write_uint entry.1 (Nat.max bc 2)).map (acc ++ ·))
        ([] : List Bool) with
    | error e1 =>
      rw [hf1] at he
      injection he with h
      obtain ⟨entry, hmem, hent⟩ := (foldlM_indep
        (fun entry : CBEntry => write_uint entry.1 (Nat.max bc 2))
        (fun acc : List Bool => (acc ++ ·)) brick_list []).2 e1 hf1
      exact Or.inl (h ▸ write_uint_error (Nat.le_max_right bc 2) hent)
    | ok idx =>
      rw [hf1] at he
      dsimp only at he
      cases hf2 : brick_list.foldlM
          (fun acc entry => (write_entry_props comp.properties entry.2).map (acc ++ ·))
          ([] : List Bool) with
      | error e2 =>
        rw [hf2] at he
        injection he with h
        obtain ⟨entry, hmem, hent⟩ := (foldlM_indep
          (fun entry : CBEntry => write_entry_props comp.properties entry.2)
          (fun acc : List Bool => (acc ++ ·)) brick_list []).2 e2 hf2
        exact Or.inr (h ▸ write_entry_props_error_cbe comp.properties entry.2 e2 hent)
      | ok v =>
        rw [hf2] at he
        injection he

lemma write_components_section_eq (s : SaveData) :
    write_components_section s = s.components.foldlM
      (fun acc pr => (write_component s.bricks.length
        (collect_component_bricks s.bricks) pr.1 pr.2).map (acc ++ ·))
      (i32_bytes (s.components.length : Int)) := by
  rw [write_components_section]

lemma write_components_section_error_io_or_cbe (s : SaveData) (e : WErr)
    (he : write_components_section s = Except.error e) :
    e = WErr.ioError ∨ e = WErr.componentBrickError := by
  rw [write_components_section_eq] at he
  obtain ⟨pr, hmem, hpr⟩ := (foldlM_indep
    (fun pr : Str × Component => write_component s.bricks.length
      (collect_component_bricks s.bricks) pr.1 pr.2)
    (fun acc : List Nat => (acc ++ ·)) s.components
    (i32_bytes (s.components.length : Int))).2 e he
  exact write_component_error_io_or_cbe _ _ _ _ e hpr

lemma missing_component_key_iff (s : SaveData) :
    missing_component_key s = true ↔
      ∃ pr ∈ s.components, ∃ b ∈ s.bricks, ∃ table,
        alist_get pr.1 b.components = some table ∧
        ∃ q ∈ pr.2.properties, alist_get q.1 table = Option.none := by
  rw [missing_component_key, List.any_eq_true]
  constructor
  · rintro ⟨pr, hpr, hb⟩
    rw [List.any_eq_true] at hb
    obtain ⟨b, hbmem, hmatch⟩ := hb
    cases hget : alist_get pr.1 b.components with
    | none =>
      rw [hget] at hmatch
      cases hmatch
    | some table =>
      rw [hget] at hmatch
      dsimp only at hmatch
      rw [List.any_eq_true] at hmatch
      obtain ⟨q, hq, hnone⟩ := hmatch
      exact ⟨pr, hpr, b, hbmem, table, hget, q, hq, Option.isNone_iff_eq_none.mp hnone⟩
  · rintro ⟨pr, hpr, b, hbmem, table, hget, q, hq, hnone⟩
    refine ⟨pr, hpr, ?_⟩
    rw [List.any_eq_true]
    refine ⟨b, hbmem, ?_⟩
    rw [hget]
    dsimp only
    rw [List.any_eq_true]
    refine ⟨q, hq, ?_⟩
    rw [hnone]
    rfl

lemma write_components_section_spec (s : SaveData) (hwf : wf_save s = true) :
    (∀ e, write_components_section s = Except.error e → e = WErr.componentBrickError) ∧
    (write_components_section s = Except.error WErr.componentBrickError ↔
      missing_component_key s = true) := by
  have hcomp_spec : ∀ pr ∈ s.components,
      (∀ e, write_component s.bricks.length (collect_component_bricks s.bricks) pr.1 pr.2 =
          Except.error e → e = WErr.componentBrickError) ∧
      (write_component s.bricks.length (collect_component_bricks s.bricks) pr.1 pr.2 =
          Except.error WErr.componentBrickError ↔
        ∃ entry ∈ (alist_get pr.1 (collect_component_bricks s.bricks)).getD ([] : List CBEntry),
          ∃ q ∈ pr.2.properties, alist_get q.1 entry.2 = Option.none) := by
    intro pr hpr
    refine write_component_spec s.bricks.length (collect_component_bricks s.bricks) pr.1 pr.2
      ?_ ((wf_save_spec hwf).2.1 pr hpr)
    intro entry hent
    exact lt_of_lt_of_le (collect_entry_spec s hwf pr.1 entry hent).1 (Nat.le_max_left _ 2)
  constructor
  · intro e he
    rw [write_components_section_eq] at he
    obtain ⟨pr, hmem, hpr⟩ := (foldlM_indep
      (fun pr : Str × Component => write_component s.bricks.length
        (collect_component_bricks s.bricks) pr.1 pr.2)
      (fun acc : List Nat => (acc ++ ·)) s.components
      (i32_bytes (s.components.length : Int))).2 e he
    exact (hcomp_spec pr hmem).1 e hpr
  · constructor
    · intro he
      rw [write_components_section_eq] at he
      obtain ⟨pr, hmem, hpr⟩ := (foldlM_indep
        (fun pr : Str × Component => write_component s.bricks.length
          (collect_component_bricks s.bricks) pr.1 pr.2)
        (fun acc : List Nat => (acc ++ ·)) s.components
        (i32_bytes (s.components.length : Int))).2 WErr.componentBrickError he
      obtain ⟨entry, hent, q, hq, hnone⟩ := (hcomp_spec pr hmem).2.mp hpr
      obtain ⟨hlt, b, hbmem, hbget⟩ := collect_entry_spec s hwf pr.1 entry hent
      exact (missing_component_key_iff s).mpr
        ⟨pr, hmem, b, hbmem, entry.2, hbget, q, hq, hnone⟩
    · intro hmiss
      obtain ⟨pr, hpr, b, hbmem, table, hget, q, hq, hnone⟩ :=
        (missing_component_key_iff s).mp hmiss
      obtain ⟨i, hgi⟩ := List.mem_iff_getElem?.mp hbmem
      have henum : ((i, b) : Nat × Brick) ∈ s.bricks.enum :=
        List.mem_enum_iff_getElem?.mpr hgi
      have hkv : ((pr.1, table) : Str × List (Str × UnrealType)) ∈ b.components :=
        alist_mem_of_get hget
      have hcoll := collect_complete s.bricks i b (pr.1, table) henum hkv
      have hcbe := (hcomp_spec pr hpr).2.mpr ⟨(i, table), hcoll, q, hq, hnone⟩
      rw [write_components_section_eq]
      cases hfold : s.components.foldlM
          (fun acc pr => (write_component s.bricks.length
            (collect_component_bricks s.bricks) pr.1 pr.2).map (acc ++ ·))
          (i32_bytes (s.components.length : Int)) with
      | ok v =>
        obtain ⟨y, hy⟩ := (foldlM_indep
          (fun pr : Str × Component => write_component s.bricks.length
            (collect_component_bricks s.bricks) pr.1 pr.2)
          (fun acc : List Nat => (acc ++ ·)) s.components
          (i32_bytes (s.components.length : Int))).1.mp ⟨v, hfold⟩ pr hpr
        rw [hcbe] at hy
        cases hy
      | error e =>
        obtain ⟨pr2, hmem2, hpr2⟩ := (foldlM_indep
          (fun pr : Str × Component => write_component s.bricks.length
            (collect_component_bricks s.bricks) pr.1 pr.2)
          (fun acc : List Nat => (acc ++ ·)) s.components
          (i32_bytes (s.components.length : Int))).2 e hfold
        rw [(hcomp_spec pr2 hmem2).1 e hpr2]

/-- C9: for a well-formed save satisfying the §3 index invariants,
`SaveWriter::write` fails with `ComponentBrickError` exactly when some brick
carries an entry under a declared component name whose property table is
missing a declared key; under the invariants every failure is that error, and
unconditionally every failure of `write` is an I/O error or the
`ComponentBrickError`. -/
theorem c9_component_brick_error_iff (s : SaveData)
    (hwf : wf_save s = true) (hinv : index_invariants s = true) :
    ((SaveWriter.write s = Except.error WErr.componentBrickError) ↔
      missing_component_key s = true) ∧
    (∀ e, SaveWriter.write s = Except.error e → e = WErr.componentBrickError) ∧
    (∀ (s2 : SaveData) (e : WErr), SaveWriter.write s2 = Except.error e →
      e = WErr.ioError ∨ e = WErr.componentBrickError) := by
  obtain ⟨B, hB⟩ := write_bricks_section_ok s hinv
  have hwc := write_components_section_spec s hwf
  have hkey_err : ∀ e, write_components_section s = Except.error e →
      SaveWriter.write s = Except.error e := by
    intro e he
    rw [SaveWriter.write, hB, he]
    rfl
  have hkey_ok : ∀ C, write_components_section s = Except.ok C →
      ∃ out, SaveWriter.write s = Except.ok out := by
    intro C hc
    exact ⟨_, by rw [SaveWriter.write, hB, hc]; rfl⟩
  have hinv_err : ∀ e, SaveWriter.write s = Except.error e →
      write_components_section s = Except.error e := by
    intro e he
    cases hc : write_components_section s with
    | ok C =>
      obtain ⟨out, hout⟩ := hkey_ok C hc
      rw [hout] at he
      cases he
    | error e2 =>
      rw [hkey_err e2 hc] at he
      injection he with h
      rw [h]
  refine ⟨⟨fun he => hwc.2.mp (hinv_err _ he), fun hm => hkey_err _ (hwc.2.mpr hm)⟩,
    fun e he => hwc.1 e (hinv_err e he), ?_⟩
  intro s2 e he
  cases hb2 : write_bricks_section s2 with
  | error eb =>
    have hw : SaveWriter.write s2 = Except.error eb := by
      rw [SaveWriter.write, hb2]
      rfl
    rw [hw] at he
    injection he with h
    exact Or.inl (h ▸ write_bricks_section_error s2 eb hb2)
  | ok B2 =>
    cases hc2 : write_components_section s2 with
    | ok C2 =>
      obtain ⟨out, hout⟩ : ∃ out, SaveWriter.write s2 = Except.ok out :=
        ⟨_, by rw [SaveWriter.write, hb2, hc2]; rfl⟩
      rw [hout] at he
      cases he
    | error ec =>
      have hw : SaveWriter.write s2 = Except.error ec := by
        rw [SaveWriter.write, hb2, hc2]
        rfl
      rw [hw] at he
      injection he with h
      exact h ▸ write_components_section_error_io_or_cbe s2 ec hc2

/-- Witness for C9: the concrete bad save satisfies both hypotheses, its
missing-key condition holds, and the theorem turns that into the concrete
`ComponentBrickError` failure of the writer. -/
theorem c9_component_brick_error_iff_witness :
    wf_save c9_bad_save = true ∧ index_invariants c9_bad_save = true ∧
    missing_component_key c9_bad_save = true ∧
    SaveWriter.write c9_bad_save = Except.error WErr.componentBrickError :=
  ⟨by decide, by decide, by decide,
    ((c9_component_brick_error_iff c9_bad_save (by decide) (by decide)).1).mpr (by decide)⟩

end Brs
